import Mathlib

/-!
# Bounding boxes of circles (TZ_Elecard, `main.go`)

A shallow embedding of `main.go`.

* `float64` is modelled as IEEE-754 binary64: NaN, the two infinities, signed
  zeros, and finite values with round-to-nearest-even addition and subtraction
  that overflow to an infinity. `math.Min`, `math.Max`, `math.MaxFloat64` and
  the comparisons `<`, `<=`, `==` follow the Go library and language.
* `CalculateBoundingBox` is the loop of the source over four accumulators.
* `GetTasks`, `CheckResults` and `main` take the network (`http.Post` followed
  by the decoding of the body) and `json.Unmarshal` into `[]Circle` as an
  explicit parameter `Net`, and return the list of events of the run: the
  requests sent, the lines printed, and the call of `CheckResults`.

The definitions come first; the lemmas and the theorems on the claims follow.
-/

namespace Elecard

/-! ## binary64

A finite binary64 value is an integer multiple of `2^-1074` (the smallest
subnormal). Finite values are kept as a sign and a magnitude counted in that
unit, so `1.0` has magnitude `2^1074` and `math.MaxFloat64` has magnitude
`(2^53 - 1) * 2^2045`. A magnitude is representable when it has at most 53
significant bits and lies below `2^2098` (that is, below `2^1024`). -/

/-- Number of low bits that do not fit in a 53-bit significand: the least `s`
with `m / 2^s < 2^53`, found by halving (`fuel` bounds the number of halvings). -/
def expOf : Nat → Nat → Nat
  | 0, _ => 0
  | fuel + 1, m => if m < 2 ^ 53 then 0 else expOf fuel (m / 2) + 1

/-- Round `m` to a multiple of `2^s`, to nearest, ties to the even multiple. -/
def roundAt (s m : Nat) : Nat :=
  let q := m / 2 ^ s
  let r := m % 2 ^ s
  let half := 2 ^ (s - 1)
  if s = 0 ∨ r < half then q * 2 ^ s
  else if half < r then (q + 1) * 2 ^ s
  else if q % 2 = 0 then q * 2 ^ s
  else (q + 1) * 2 ^ s

/-- Round a magnitude to 53 significant bits, to nearest, ties to the even
significand (the IEEE-754 default rounding, which Go uses for `+` and `-`). -/
def roundMag (m : Nat) : Nat := roundAt (expOf m m) m

/-- First magnitude that is out of range: `2^1024` in units of `2^-1074`. -/
@[irreducible] def overflowMag : Nat := 2 ^ (53 + 2045)

/-- Largest finite magnitude, that of `math.MaxFloat64`: `(2^53 - 1) * 2^971`
in units of `2^-1074`. -/
@[irreducible] def maxMag : Nat := (2 ^ 53 - 1) * 2 ^ 2045

/-- Shape of a binary64 value: NaN, an infinity, or a signed finite magnitude. -/
inductive F64 where
  | nan
  | inf (neg : Bool)
  | fin (neg : Bool) (mag : Nat)
  deriving DecidableEq

/-- Representable shapes: a finite magnitude is in range and unchanged by rounding. -/
def F64.IsValid : F64 → Bool
  | .fin _ m => decide (m < overflowMag) && decide (roundMag m = m)
  | _ => true

/-- Go's `float64`: the representable shapes. -/
structure Float64 where
  raw : F64
  valid : raw.IsValid = true
  deriving DecidableEq

/-- Signed integer value of a finite shape, in units of `2^-1074`. -/
def signedMag (neg : Bool) (mag : Nat) : Int :=
  if neg then -(mag : Int) else (mag : Int)

/-- Result of an exact finite sum `z` (in units of `2^-1074`) after rounding:
a zero keeps the sign `zeroNeg`, an out-of-range result becomes an infinity. -/
def F64.ofExact (z : Int) (zeroNeg : Bool) : F64 :=
  if z = 0 then .fin zeroNeg 0
  else
    let m := roundMag z.natAbs
    if overflowMag ≤ m then .inf (decide (z < 0)) else .fin (decide (z < 0)) m

/-- IEEE-754 addition on shapes. -/
def F64.add : F64 → F64 → F64
  | .nan, _ => .nan
  | _, .nan => .nan
  | .inf a, .inf b => if a = b then .inf a else .nan
  | .inf a, .fin _ _ => .inf a
  | .fin _ _, .inf b => .inf b
  | .fin n1 m1, .fin n2 m2 => F64.ofExact (signedMag n1 m1 + signedMag n2 m2) (n1 && n2)

/-- Position of a non-NaN shape on the number line, in units of `2^-1074`;
the infinities sit at `±2^1024`, just outside the finite range. -/
def F64.key : F64 → Int
  | .nan => 0
  | .inf n => signedMag n overflowMag
  | .fin n m => signedMag n m

/-- The shape is NaN. -/
def F64.isNaN : F64 → Bool
  | .nan => true
  | _ => false

/-- IEEE-754 negation on shapes (flips the sign bit). -/
def F64.neg : F64 → F64
  | .nan => .nan
  | .inf a => .inf (!a)
  | .fin n m => .fin (!n) m

namespace Float64

/-- Go's `math.NaN()`. -/
def NaN : Float64 := ⟨.nan, rfl⟩

/-- Go's `math.Inf(sign)`: `+Inf` when `neg` is false, `-Inf` when it is true. -/
def Inf (neg : Bool) : Float64 := ⟨.inf neg, rfl⟩

/-- The zero value of `float64`, `+0`. -/
def zero : Float64 := ⟨.fin false 0, by decide!⟩

/-- Negative zero. -/
def negZero : Float64 := ⟨.fin true 0, by decide!⟩

/-- Go's `math.IsNaN`. -/
def isNaN (x : Float64) : Bool := x.raw.isNaN

/-- Go's `math.IsInf(x, sign)` for `sign = -1` (`neg = true`) and `sign = 1`. -/
def isInf (x : Float64) (neg : Bool) : Bool :=
  match x.raw with
  | .inf n => n == neg
  | _ => false

/-- Neither NaN nor an infinity: what a JSON number decodes to. -/
def isFinite (x : Float64) : Bool :=
  match x.raw with
  | .fin _ _ => true
  | _ => false

/-- Go's `math.Signbit`. -/
def signbit (x : Float64) : Bool :=
  match x.raw with
  | .nan => false
  | .inf n => n
  | .fin n _ => n

/-- Position of a non-NaN value on the number line (see `F64.key`). -/
def key (x : Float64) : Int := x.raw.key

/-- Go's `x < y` on `float64` (false when either side is NaN). -/
def lt (x y : Float64) : Bool := !x.isNaN && !y.isNaN && decide (x.key < y.key)

/-- Go's `x <= y` on `float64` (false when either side is NaN). -/
def le (x y : Float64) : Bool := !x.isNaN && !y.isNaN && decide (x.key ≤ y.key)

/-- Go's `x == y` on `float64` (false when either side is NaN; `-0 == +0`). -/
def eq (x y : Float64) : Bool := !x.isNaN && !y.isNaN && decide (x.key = y.key)

/-- Go's unary minus. -/
def neg (x : Float64) : Float64 :=
  if h : (F64.neg x.raw).IsValid = true then ⟨F64.neg x.raw, h⟩ else NaN

/-- Go's `x + y` on `float64`. The result of `F64.add` is always representable
(theorem `Float64.add_raw`), so the fallback branch is never taken. -/
def add (x y : Float64) : Float64 :=
  if h : (F64.add x.raw y.raw).IsValid = true then ⟨F64.add x.raw y.raw, h⟩ else NaN

/-- Go's `x - y` on `float64`: IEEE-754 subtraction is addition of the negation. -/
def sub (x y : Float64) : Float64 := add x (neg y)

/-- Go's `math.MaxFloat64`, `(2^53 - 1) * 2^971`. -/
def MaxFloat64 : Float64 := ⟨.fin false maxMag, by decide!⟩

/-- The constant `-math.MaxFloat64`. -/
def negMaxFloat64 : Float64 := ⟨.fin true maxMag, by decide!⟩

/-- Go's `math.Min`. -/
def Min (x y : Float64) : Float64 :=
  if x.isInf true || y.isInf true then Inf true
  else if x.isNaN || y.isNaN then NaN
  else if x.eq zero && x.eq y then (if x.signbit then x else y)
  else if x.lt y then x
  else y

/-- Go's `math.Max`. -/
def Max (x y : Float64) : Float64 :=
  if x.isInf false || y.isInf false then Inf false
  else if x.isNaN || y.isNaN then NaN
  else if x.eq zero && x.eq y then (if x.signbit then y else x)
  else if y.lt x then x
  else y

/-- The `float64` with integer value `n` (exact for `|n| < 2^53`). -/
def ofInt (n : Int) : Float64 :=
  if h : (F64.ofExact (n * 2 ^ 1074) false).IsValid = true
  then ⟨F64.ofExact (n * 2 ^ 1074) false, h⟩ else NaN

end Float64

/-! ## Data model -/

/-- Go's `Circle`. -/
structure Circle where
  X : Float64
  Y : Float64
  Radius : Float64
  deriving DecidableEq

/-- Go's `Point`. -/
structure Point where
  X : Float64
  Y : Float64
  deriving DecidableEq

/-- Go's `Rectangle`. -/
structure Rectangle where
  LeftBottom : Point
  RightTop : Point
  deriving DecidableEq

/-- The zero value `Rectangle{}`: every coordinate is `+0`. -/
def Rectangle.zeroValue : Rectangle :=
  ⟨⟨Float64.zero, Float64.zero⟩, ⟨Float64.zero, Float64.zero⟩⟩

/-- The four running accumulators of `CalculateBoundingBox`. -/
structure BoxAcc where
  leftBottomX : Float64
  leftBottomY : Float64
  rightTopX : Float64
  rightTopY : Float64
  deriving DecidableEq

/-- Accumulators before the loop: `math.MaxFloat64` twice, `-math.MaxFloat64` twice. -/
def BoxAcc.init : BoxAcc :=
  ⟨Float64.MaxFloat64, Float64.MaxFloat64, Float64.negMaxFloat64, Float64.negMaxFloat64⟩

/-- One iteration of the loop body of `CalculateBoundingBox`. -/
def BoxAcc.step (acc : BoxAcc) (circle : Circle) : BoxAcc :=
  { leftBottomX := Float64.Min acc.leftBottomX (Float64.sub circle.X circle.Radius)
    leftBottomY := Float64.Min acc.leftBottomY (Float64.sub circle.Y circle.Radius)
    rightTopX := Float64.Max acc.rightTopX (Float64.add circle.X circle.Radius)
    rightTopY := Float64.Max acc.rightTopY (Float64.add circle.Y circle.Radius) }

/-- Go's `CalculateBoundingBox`. -/
def CalculateBoundingBox (circles : List Circle) : Rectangle :=
  if circles.length = 0 then Rectangle.zeroValue
  else
    let acc := circles.foldl BoxAcc.step BoxAcc.init
    { LeftBottom := ⟨acc.leftBottomX, acc.leftBottomY⟩
      RightTop := ⟨acc.rightTopX, acc.rightTopY⟩ }

/-! ## Vocabulary of the geometric properties -/

/-- Go's `c.X - c.Radius`: the left extent of the disc. -/
def Circle.left (c : Circle) : Float64 := Float64.sub c.X c.Radius

/-- Go's `c.Y - c.Radius`: the bottom extent of the disc. -/
def Circle.bottom (c : Circle) : Float64 := Float64.sub c.Y c.Radius

/-- Go's `c.X + c.Radius`: the right extent of the disc. -/
def Circle.right (c : Circle) : Float64 := Float64.add c.X c.Radius

/-- Go's `c.Y + c.Radius`: the top extent of the disc. -/
def Circle.top (c : Circle) : Float64 := Float64.add c.Y c.Radius

/-- None of the four extents of the disc is NaN. -/
def Circle.extentsNotNaN (c : Circle) : Bool :=
  !c.left.isNaN && !c.bottom.isNaN && !c.right.isNaN && !c.top.isNaN

/-- All three fields are finite numbers, as after decoding a JSON object. -/
def Circle.isFinite (c : Circle) : Bool :=
  c.X.isFinite && c.Y.isFinite && c.Radius.isFinite

/-- Exact left extent `X - Radius` of a circle with finite fields, as an
integer number of units of `2^-1074` (no rounding). -/
def Circle.exactLeft (c : Circle) : Int := c.X.key - c.Radius.key

/-- Exact bottom extent `Y - Radius`, in units of `2^-1074`. -/
def Circle.exactBottom (c : Circle) : Int := c.Y.key - c.Radius.key

/-- Exact right extent `X + Radius`, in units of `2^-1074`. -/
def Circle.exactRight (c : Circle) : Int := c.X.key + c.Radius.key

/-- Exact top extent `Y + Radius`, in units of `2^-1074`. -/
def Circle.exactTop (c : Circle) : Int := c.Y.key + c.Radius.key

/-- The rectangle contains the disc as a set of points of the plane: its
corners bound the exact extents (for a rectangle and a circle with finite
coordinates). -/
def Rectangle.containsExactDisc (r : Rectangle) (c : Circle) : Bool :=
  decide (r.LeftBottom.X.key ≤ c.exactLeft) && decide (r.LeftBottom.Y.key ≤ c.exactBottom) &&
  decide (c.exactRight ≤ r.RightTop.X.key) && decide (c.exactTop ≤ r.RightTop.Y.key)

/-- The four extents are computed without rounding error: each `float64`
result sits at the exact position. -/
def Circle.extentsExact (c : Circle) : Bool :=
  decide (c.left.key = c.exactLeft) && decide (c.bottom.key = c.exactBottom) &&
  decide (c.right.key = c.exactRight) && decide (c.top.key = c.exactTop)

/-- All four coordinates are finite: what `json.Marshal` accepts. -/
def Rectangle.isFinite (r : Rectangle) : Bool :=
  r.LeftBottom.X.isFinite && r.LeftBottom.Y.isFinite &&
  r.RightTop.X.isFinite && r.RightTop.Y.isFinite

/-- Reference minimum of `f` over a list of circles, by the order alone
(no sentinel): keep the smaller of the running value and the next one. -/
def minOver (f : Circle → Float64) : List Circle → Float64
  | [] => Float64.NaN
  | c :: cs => cs.foldl (fun m d => if (f d).lt m then f d else m) (f c)

/-- Reference maximum of `f` over a list of circles, by the order alone. -/
def maxOver (f : Circle → Float64) : List Circle → Float64
  | [] => Float64.NaN
  | c :: cs => cs.foldl (fun m d => if m.lt (f d) then f d else m) (f c)

/-- The sentinels do not show: on each axis some lower extent is not `+Inf`
and some upper extent is not `-Inf`. -/
def sentinelFree (cs : List Circle) : Bool :=
  cs.any (fun c => !c.left.isInf false) && cs.any (fun c => !c.bottom.isInf false) &&
  cs.any (fun c => !c.right.isInf true) && cs.any (fun c => !c.top.isInf true)

/-! ## Sample values -/

/-- The finite `float64` with the given sign and magnitude (in units of
`2^-1074`), for a magnitude that is representable. -/
def Float64.ofMag (neg : Bool) (mag : Nat) : Float64 :=
  if h : (F64.fin neg mag).IsValid = true then ⟨.fin neg mag, h⟩ else Float64.NaN

/-- The `float64` that the JSON number `0.7` decodes to, `0x1.6666666666666p-1`. -/
def sevenTenths : Float64 := Float64.ofMag false (0x16666666666666 * 2 ^ 1021)

/-- The `float64` that the JSON number `0.1` decodes to, `0x1.999999999999ap-4`. -/
def oneTenth : Float64 := Float64.ofMag false (0x1999999999999A * 2 ^ 1018)

/-- The circle that `{"x": 0.7, "y": 0, "radius": 0.1}` decodes to. -/
def roundingCircle : Circle := ⟨sevenTenths, Float64.zero, oneTenth⟩

/-- A circle outside the data model (negative radius) whose left extent
overflows: `X = MaxFloat64`, `Y = 0`, `Radius = -MaxFloat64`. -/
def overflowCircle : Circle := ⟨Float64.MaxFloat64, Float64.zero, Float64.negMaxFloat64⟩

/-- A circle that JSON cannot carry: `X = NaN`, `Y = 0`, `Radius = +0`. -/
def nanCircle : Circle := ⟨Float64.NaN, Float64.zero, Float64.zero⟩

/-- The degenerate circle at `(10,0)` of radius `+0`. -/
def pointCircle : Circle := ⟨Float64.ofInt 10, Float64.zero, Float64.zero⟩

/-- The circle at `(0,0)` of radius `5`. -/
def circle5 : Circle := ⟨Float64.ofInt 0, Float64.ofInt 0, Float64.ofInt 5⟩

/-- The circle at `(0,0)` of radius `1`. -/
def circleA : Circle := ⟨Float64.ofInt 0, Float64.ofInt 0, Float64.ofInt 1⟩

/-- The circle at `(10,0)` of radius `1`. -/
def circleB : Circle := ⟨Float64.ofInt 10, Float64.ofInt 0, Float64.ofInt 1⟩

/-- The rectangle `(x1,y1)-(x2,y2)` with integer corners. -/
def Rectangle.ofInts (x1 y1 x2 y2 : Int) : Rectangle :=
  ⟨⟨Float64.ofInt x1, Float64.ofInt y1⟩, ⟨Float64.ofInt x2, Float64.ofInt y2⟩⟩

/-! ## Requests, responses and the two API calls -/

/-- A decoded JSON value as `encoding/json` stores it in an `interface{}`. -/
inductive JSONValue where
  | null
  | bool (b : Bool)
  | number (x : Float64)
  | string (s : String)
  | array (items : List JSONValue)
  | object (fields : List (String × JSONValue))

/-- Go's `APIError`. -/
structure APIError where
  Code : Int
  Message : String

/-- The `Params interface{}` of a request: `nil` or a `[]Rectangle`. -/
inductive RequestParams where
  | none
  | rectangles (rs : List Rectangle)
  deriving DecidableEq

/-- Go's `APIRequest`. -/
structure APIRequest where
  Key : String
  Method : String
  Params : RequestParams
  deriving DecidableEq

/-- Go's `APIResponse`. -/
structure APIResponse where
  Result : JSONValue
  Error : Option APIError

/-- The constant `apiKey`. -/
def apiKey : String :=
  "wGGKtE45kMrF/q8TBbOcWxcy0n5Qm/y//XeNj4r/WDGb8eZK6dG5K+xdqRdrPb8CP7rzdcdR4jSm9AJ7EsIOmA=="

/-- What the outside world does with the program: `post` is `http.Post` followed
by `json.NewDecoder(resp.Body).Decode(&apiResp)` (outer error: the transport
failed; inner error: the body did not decode), `unmarshalCircles` is
`json.Marshal(task)` followed by `json.Unmarshal(taskData, &circles)`. -/
structure Net where
  post : APIRequest → Except String (Except String APIResponse)
  unmarshalCircles : JSONValue → Except String (List Circle)

/-- What a run does that can be observed. -/
inductive Event where
  | post (req : APIRequest)
  | print (text : String)
  | callCheckResults (results : List Rectangle)
  deriving DecidableEq

/-- The loop of `GetTasks` over the result array: decode each task, append it,
return at the first task that does not decode. -/
def decodeTasks (net : Net) : List JSONValue → List (List Circle) →
    Except String (List (List Circle))
  | [], result => .ok result
  | task :: rest, result =>
    match net.unmarshalCircles task with
    | .error err => .error err
    | .ok circles => decodeTasks net rest (result ++ [circles])

/-- The part of `GetTasks` after the response is decoded (lines 97-116). -/
def interpretTasks (net : Net) (apiResp : APIResponse) : Except String (List (List Circle)) :=
  match apiResp.Error with
  | some e => .error ("API error: " ++ e.Message)
  | none =>
    match apiResp.Result with
    | .array tasks => decodeTasks net tasks []
    | _ => .error "invalid response format"

/-- The request `GetTasks` sends. -/
def getTasksRequest : APIRequest := ⟨apiKey, "GetTasks", .none⟩

/-- Go's `GetTasks`: the events of the call and its result. -/
def GetTasks (net : Net) : Except String (List (List Circle)) × List Event :=
  match net.post getTasksRequest with
  | .error err => (.error err, [.post getTasksRequest])
  | .ok (.error err) => (.error err, [.post getTasksRequest])
  | .ok (.ok apiResp) => (interpretTasks net apiResp, [.post getTasksRequest])

/-- The text `encoding/json` puts in its error for a value it cannot encode. -/
def unsupportedValue (x : Float64) : Option String :=
  match x.raw with
  | .nan => some "json: unsupported value: NaN"
  | .inf false => some "json: unsupported value: +Inf"
  | .inf true => some "json: unsupported value: -Inf"
  | .fin _ _ => none

/-- The check `json.Marshal` makes on the rectangles of a request: the first
coordinate that is NaN or infinite, in encoding order, is an error. -/
def marshalRectangles : List Rectangle → Except String Unit
  | [] => .ok ()
  | r :: rest =>
    match (unsupportedValue r.LeftBottom.X).orElse fun _ =>
          (unsupportedValue r.LeftBottom.Y).orElse fun _ =>
          (unsupportedValue r.RightTop.X).orElse fun _ =>
          unsupportedValue r.RightTop.Y with
    | some err => .error err
    | none => marshalRectangles rest

/-- The copy loop at the head of `CheckResults` (lines 147-150). -/
def copyParams (results : List Rectangle) : List Rectangle :=
  results.foldl (fun params result => params ++ [result]) []

/-- The request `CheckResults` builds from its argument. -/
def checkResultsRequest (results : List Rectangle) : APIRequest :=
  ⟨apiKey, "CheckResults", .rectangles (copyParams results)⟩

/-- The print loop of `CheckResults` (lines 181-185); `i` is the index of the
first element of the list in the whole array. -/
def printChecks : Nat → List JSONValue → List Event
  | _, [] => []
  | i, .bool success :: rest =>
    .print ("Test " ++ toString (i + 1) ++ " passed: " ++ toString success ++ "\n") ::
      printChecks (i + 1) rest
  | i, _ :: rest => printChecks (i + 1) rest

/-- The part of `CheckResults` after the response is decoded (lines 172-187). -/
def interpretCheck (apiResp : APIResponse) : Except String Unit × List Event :=
  match apiResp.Error with
  | some e => (.error ("API error: " ++ e.Message), [])
  | none =>
    match apiResp.Result with
    | .array resultsCheck => (.ok (), printChecks 0 resultsCheck)
    | _ => (.error "invalid response format for results check", [])

/-- Go's `CheckResults`: the events of the call and its result. -/
def CheckResults (net : Net) (results : List Rectangle) : Except String Unit × List Event :=
  let req := checkResultsRequest results
  match marshalRectangles (copyParams results) with
  | .error err => (.error err, [.callCheckResults results])
  | .ok () =>
    match net.post req with
    | .error err => (.error err, [.callCheckResults results, .post req])
    | .ok (.error err) => (.error err, [.callCheckResults results, .post req])
    | .ok (.ok apiResp) =>
      ((interpretCheck apiResp).1,
        [.callCheckResults results, .post req] ++ (interpretCheck apiResp).2)

/-- The loop of `main` (lines 18-22): one bounding box appended per task. -/
def boundingBoxes (tasks : List (List Circle)) : List Rectangle :=
  tasks.foldl (fun results circles => results ++ [CalculateBoundingBox circles]) []

/-- Go's `main`: everything the run does, in order. -/
def main (net : Net) : List Event :=
  match GetTasks net with
  | (.error err, events) => events ++ [.print ("Error getting tasks: " ++ err ++ "\n")]
  | (.ok tasks, events) =>
    match CheckResults net (boundingBoxes tasks) with
    | (.error err, events2) =>
      events ++ events2 ++ [.print ("Error checking results: " ++ err ++ "\n")]
    | (.ok (), events2) => events ++ events2


/-! ## Sample responses and networks -/

/-- A response without error object whose result is `null`. -/
def nullResponse : APIResponse := ⟨.null, none⟩

/-- A response that carries the error object `(7, "bad key")` next to a result array. -/
def errorResponse : APIResponse := ⟨.array [], some ⟨7, "bad key"⟩⟩

/-- A response without error object whose result is `[true, false]`. -/
def boolsResponse : APIResponse := ⟨.array ([true, false].map JSONValue.bool), none⟩

/-- A network that answers every request with `errorResponse`. -/
def errorNet : Net := ⟨fun _ => .ok (.ok errorResponse), fun _ => .ok []⟩

/-- A network whose `GetTasks` result is two tasks, the second one empty, and
that decodes every task to the circle `(0,0) r=5` or, for `null`, to no circle. -/
def twoTaskNet : Net :=
  ⟨fun _ => .ok (.ok ⟨.array [.array [], .null], none⟩),
   fun task => match task with
     | .null => .ok []
     | _ => .ok [circle5]⟩

/-! ## Rounding -/

theorem expOf_spec (fuel : Nat) : ∀ m, m < 2 ^ (53 + fuel) →
    (expOf fuel m = 0 ∧ m < 2 ^ 53) ∨
    (0 < expOf fuel m ∧ 2 ^ (52 + expOf fuel m) ≤ m ∧ m < 2 ^ (53 + expOf fuel m)) := by
  induction fuel with
  | zero => intro m hm; left; exact ⟨rfl, hm⟩
  | succ f ih =>
    intro m hm
    by_cases h : m < 2 ^ 53
    · left; exact ⟨by simp only [expOf, if_pos h], h⟩
    · right
      have hm2 : m / 2 < 2 ^ (53 + f) := by
        have : 2 ^ (53 + (f + 1)) = 2 * 2 ^ (53 + f) := by rw [← Nat.add_assoc, Nat.pow_succ]; ring
        omega
      simp only [expOf, if_neg h]
      rcases ih (m / 2) hm2 with ⟨h0, hlt⟩ | ⟨hpos, hlo, hhi⟩
      · rw [h0]
        refine ⟨by omega, ?_, ?_⟩
        · simpa using Nat.le_of_not_lt h
        · have : (2:Nat) ^ (53 + (0 + 1)) = 2 * 2 ^ 53 := by norm_num
          omega
      · refine ⟨by omega, ?_, ?_⟩
        · have : (2:Nat) ^ (52 + (expOf f (m / 2) + 1)) = 2 * 2 ^ (52 + expOf f (m / 2)) := by
            rw [← Nat.add_assoc, Nat.pow_succ]; ring
          omega
        · have : (2:Nat) ^ (53 + (expOf f (m / 2) + 1)) = 2 * 2 ^ (53 + expOf f (m / 2)) := by
            rw [← Nat.add_assoc, Nat.pow_succ]; ring
          omega

theorem expOf_self_spec (m : Nat) :
    (expOf m m = 0 ∧ m < 2 ^ 53) ∨
    (0 < expOf m m ∧ 2 ^ (52 + expOf m m) ≤ m ∧ m < 2 ^ (53 + expOf m m)) := by
  apply expOf_spec
  calc m < 2 ^ m := Nat.lt_two_pow m
    _ ≤ 2 ^ (53 + m) := Nat.pow_le_pow_right (by norm_num) (by omega)

theorem expOf_eq_zero {m : Nat} (h : m < 2 ^ 53) : expOf m m = 0 := by
  rcases expOf_self_spec m with ⟨h0, _⟩ | ⟨hpos, hlo, _⟩
  · exact h0
  · exfalso
    have : 2 ^ 53 ≤ 2 ^ (52 + expOf m m) := Nat.pow_le_pow_right (by norm_num) (by omega)
    omega

theorem expOf_unique {m s : Nat} (hs : 0 < s) (hlo : 2 ^ (52 + s) ≤ m) (hhi : m < 2 ^ (53 + s)) :
    expOf m m = s := by
  rcases expOf_self_spec m with ⟨_, hlt⟩ | ⟨hpos, hlo2, hhi2⟩
  · exfalso
    have : 2 ^ 53 ≤ 2 ^ (52 + s) := Nat.pow_le_pow_right (by norm_num) (by omega)
    omega
  · have h1 : 52 + s < 53 + expOf m m :=
      (Nat.pow_lt_pow_iff_right (by norm_num : 1 < 2)).mp (lt_of_le_of_lt hlo hhi2)
    have h2 : 52 + expOf m m < 53 + s :=
      (Nat.pow_lt_pow_iff_right (by norm_num : 1 < 2)).mp (lt_of_le_of_lt hlo2 hhi)
    omega

theorem roundAt_zero (m : Nat) : roundAt 0 m = m := by
  simp [roundAt]

theorem two_pow_pred {s : Nat} (hs : 0 < s) : 2 ^ s = 2 * 2 ^ (s - 1) := by
  obtain ⟨t, rfl⟩ : ∃ t, s = t + 1 := ⟨s - 1, by omega⟩
  simp [Nat.pow_succ, Nat.mul_comm]

theorem roundAt_ge (s m : Nat) : m / 2 ^ s * 2 ^ s ≤ roundAt s m := by
  unfold roundAt
  simp only
  split_ifs <;> first | exact Nat.le_refl _ | exact Nat.mul_le_mul_right _ (Nat.le_succ _)

theorem roundAt_le (s m : Nat) : roundAt s m ≤ (m / 2 ^ s + 1) * 2 ^ s := by
  unfold roundAt
  simp only
  split_ifs <;> first | exact Nat.le_refl _ | exact Nat.mul_le_mul_right _ (Nat.le_succ _)

theorem roundAt_dvd (s m : Nat) : roundAt s m % 2 ^ s = 0 := by
  unfold roundAt
  simp only
  split_ifs <;> exact Nat.mul_mod_left _ _

theorem roundAt_of_mod_eq_zero {s m : Nat} (h : m % 2 ^ s = 0) : roundAt s m = m := by
  have hm : m / 2 ^ s * 2 ^ s = m := Nat.div_mul_cancel (Nat.dvd_of_mod_eq_zero h)
  unfold roundAt
  simp only [h]
  rw [if_pos, hm]
  by_cases hs : s = 0
  · exact Or.inl hs
  · exact Or.inr (Nat.pos_pow_of_pos _ (by norm_num))

theorem roundAt_mono (s : Nat) {m k : Nat} (h : m ≤ k) : roundAt s m ≤ roundAt s k := by
  by_cases hs : s = 0
  · subst hs; simpa [roundAt_zero] using h
  have hP : 2 ^ s = 2 * 2 ^ (s - 1) := two_pow_pred (by omega)
  have hq : m / 2 ^ s ≤ k / 2 ^ s := Nat.div_le_div_right h
  rcases Nat.lt_or_eq_of_le hq with hlt | heq
  · calc roundAt s m ≤ (m / 2 ^ s + 1) * 2 ^ s := roundAt_le s m
      _ ≤ k / 2 ^ s * 2 ^ s := Nat.mul_le_mul_right _ hlt
      _ ≤ roundAt s k := roundAt_ge s k
  · have hm := Nat.div_add_mod m (2 ^ s)
    have hk := Nat.div_add_mod k (2 ^ s)
    have hr : m % 2 ^ s ≤ k % 2 ^ s := by
      rw [heq] at hm; omega
    unfold roundAt
    simp only [hs, false_or, heq]
    generalize m % 2 ^ s = rm at *
    generalize k % 2 ^ s = rk at *
    generalize 2 ^ (s - 1) = half at *
    have hstep : k / 2 ^ s * 2 ^ s ≤ (k / 2 ^ s + 1) * 2 ^ s :=
      Nat.mul_le_mul_right _ (Nat.le_succ _)
    split_ifs <;> first | exact Nat.le_refl _ | exact hstep | (exfalso; omega)

theorem roundMag_eq_self_iff (m : Nat) : roundMag m = m ↔ m % 2 ^ expOf m m = 0 := by
  constructor
  · intro h
    have := roundAt_dvd (expOf m m) m
    unfold roundMag at h
    rw [h] at this
    exact this
  · intro h
    exact roundAt_of_mod_eq_zero h

theorem roundMag_of_lt {m : Nat} (h : m < 2 ^ 53) : roundMag m = m := by
  unfold roundMag
  rw [expOf_eq_zero h, roundAt_zero]

theorem roundAt_bounds {m s : Nat} (hlo : 2 ^ (52 + s) ≤ m) (hhi : m < 2 ^ (53 + s)) :
    2 ^ (52 + s) ≤ roundAt s m ∧ roundAt s m ≤ 2 ^ (53 + s) := by
  have hP : 0 < 2 ^ s := Nat.pos_pow_of_pos _ (by norm_num)
  have hq1 : 2 ^ 52 ≤ m / 2 ^ s := by
    rw [Nat.le_div_iff_mul_le hP, ← Nat.pow_add]; exact hlo
  have hq2 : m / 2 ^ s < 2 ^ 53 := by
    rw [Nat.div_lt_iff_lt_mul hP, ← Nat.pow_add]; exact hhi
  constructor
  · calc 2 ^ (52 + s) = 2 ^ 52 * 2 ^ s := Nat.pow_add _ _ _
      _ ≤ m / 2 ^ s * 2 ^ s := Nat.mul_le_mul_right _ hq1
      _ ≤ roundAt s m := roundAt_ge s m
  · calc roundAt s m ≤ (m / 2 ^ s + 1) * 2 ^ s := roundAt_le s m
      _ ≤ 2 ^ 53 * 2 ^ s := Nat.mul_le_mul_right _ hq2
      _ = 2 ^ (53 + s) := (Nat.pow_add _ _ _).symm

theorem roundMag_idem (m : Nat) : roundMag (roundMag m) = roundMag m := by
  rcases expOf_self_spec m with ⟨_, hlt⟩ | ⟨hpos, hlo, hhi⟩
  · rw [roundMag_of_lt hlt, roundMag_of_lt hlt]
  · have hb := roundAt_bounds hlo hhi
    have hd := roundAt_dvd (expOf m m) m
    have hn : roundMag m = roundAt (expOf m m) m := rfl
    rw [(roundMag_eq_self_iff _)]
    rw [hn]
    generalize roundAt (expOf m m) m = n at *
    generalize expOf m m = s at *
    rcases Nat.lt_or_eq_of_le hb.2 with hlt | heq
    · rw [expOf_unique hpos hb.1 hlt]; exact hd
    · have h1 : 2 ^ (52 + (s + 1)) ≤ n := by
        rw [heq]; exact Nat.pow_le_pow_right (by norm_num) (by omega)
      have h2 : n < 2 ^ (53 + (s + 1)) := by
        rw [heq]; exact Nat.pow_lt_pow_right (by norm_num) (by omega)
      rw [expOf_unique (Nat.succ_pos s) h1 h2, heq]
      have : 53 + s = 52 + (s + 1) := by omega
      rw [this, Nat.pow_add]
      exact Nat.mul_mod_left _ _

theorem roundMag_mono {m k : Nat} (h : m ≤ k) : roundMag m ≤ roundMag k := by
  rcases expOf_self_spec m with ⟨_, hm⟩ | ⟨hsm, hmlo, hmhi⟩
  · rcases expOf_self_spec k with ⟨_, hk⟩ | ⟨hsk, hklo, hkhi⟩
    · rw [roundMag_of_lt hm, roundMag_of_lt hk]; exact h
    · rw [roundMag_of_lt hm]
      have h1 : 2 ^ 53 ≤ 2 ^ (52 + expOf k k) := Nat.pow_le_pow_right (by norm_num) (by omega)
      have h2 := (roundAt_bounds hklo hkhi).1
      unfold roundMag
      omega
  · rcases expOf_self_spec k with ⟨_, hk⟩ | ⟨hsk, hklo, hkhi⟩
    · exfalso
      have h1 : 2 ^ 53 ≤ 2 ^ (52 + expOf m m) := Nat.pow_le_pow_right (by norm_num) (by omega)
      omega
    · have hle : 52 + expOf m m < 53 + expOf k k :=
        (Nat.pow_lt_pow_iff_right (by norm_num : 1 < 2)).mp
          (lt_of_le_of_lt hmlo (lt_of_le_of_lt h hkhi))
      rcases Nat.lt_or_eq_of_le (by omega : expOf m m ≤ expOf k k) with hlt | heq
      · have h1 := (roundAt_bounds hmlo hmhi).2
        have h2 := (roundAt_bounds hklo hkhi).1
        have h3 : 2 ^ (53 + expOf m m) ≤ 2 ^ (52 + expOf k k) :=
          Nat.pow_le_pow_right (by norm_num) (by omega)
        unfold roundMag
        omega
      · unfold roundMag
        rw [heq]
        exact roundAt_mono _ h

theorem le_maxMag_of_valid {m e : Nat} (h1 : m < 2 ^ (53 + e)) (h2 : roundMag m = m) :
    m ≤ (2 ^ 53 - 1) * 2 ^ e := by
  rcases expOf_self_spec m with ⟨_, hm⟩ | ⟨hs, hlo, hhi⟩
  · calc m ≤ 2 ^ 53 - 1 := by omega
      _ ≤ (2 ^ 53 - 1) * 2 ^ e := Nat.le_mul_of_pos_right _ (Nat.pos_pow_of_pos _ (by norm_num))
  · have hmod := (roundMag_eq_self_iff m).mp h2
    have hs2 : 52 + expOf m m < 53 + e :=
      (Nat.pow_lt_pow_iff_right (by norm_num : 1 < 2)).mp (lt_of_le_of_lt hlo h1)
    have hP : 0 < 2 ^ expOf m m := Nat.pos_pow_of_pos _ (by norm_num)
    have hq2 : m / 2 ^ expOf m m < 2 ^ 53 := by
      rw [Nat.div_lt_iff_lt_mul hP, ← Nat.pow_add]; exact hhi
    have hm : m / 2 ^ expOf m m * 2 ^ expOf m m = m :=
      Nat.div_mul_cancel (Nat.dvd_of_mod_eq_zero hmod)
    calc m = m / 2 ^ expOf m m * 2 ^ expOf m m := hm.symm
      _ ≤ (2 ^ 53 - 1) * 2 ^ expOf m m := Nat.mul_le_mul_right _ (by omega)
      _ ≤ (2 ^ 53 - 1) * 2 ^ e :=
          Nat.mul_le_mul_left _ (Nat.pow_le_pow_right (by norm_num) (by omega))

/-! ## Order, `math.Min` and `math.Max` -/

theorem overflowMag_eq : overflowMag = 2 ^ (53 + 2045) := by
  unfold overflowMag; rfl

theorem maxMag_eq : maxMag = (2 ^ 53 - 1) * 2 ^ 2045 := by
  unfold maxMag; rfl

theorem maxMag_lt_overflowMag : maxMag < overflowMag := by decide!

theorem overflowMag_pos : 0 < overflowMag := by decide!

theorem F64.isValid_fin {n : Bool} {m : Nat} (h : (F64.fin n m).IsValid = true) :
    m < overflowMag ∧ roundMag m = m := by
  simpa [F64.IsValid] using h

theorem mag_le_maxMag {n : Bool} {m : Nat} (h : (F64.fin n m).IsValid = true) : m ≤ maxMag := by
  obtain ⟨h1, h2⟩ := F64.isValid_fin h
  rw [overflowMag_eq] at h1
  rw [maxMag_eq]
  exact le_maxMag_of_valid h1 h2

namespace Float64

theorem key_bounds (x : Float64) : -(overflowMag : Int) ≤ x.key ∧ x.key ≤ overflowMag := by
  rcases x with ⟨_ | n | ⟨n, m⟩, hv⟩
  · simp [key, F64.key]
  · cases n <;> simp [key, F64.key, signedMag]
  · have := (F64.isValid_fin hv).1
    cases n <;> simp [key, F64.key, signedMag] <;> omega

theorem lt_iff {x y : Float64} (hx : x.isNaN = false) (hy : y.isNaN = false) :
    x.lt y = true ↔ x.key < y.key := by
  simp [lt, hx, hy]

theorem le_iff {x y : Float64} (hx : x.isNaN = false) (hy : y.isNaN = false) :
    x.le y = true ↔ x.key ≤ y.key := by
  simp [le, hx, hy]

theorem eq_iff {x y : Float64} (hx : x.isNaN = false) (hy : y.isNaN = false) :
    x.eq y = true ↔ x.key = y.key := by
  simp [eq, hx, hy]

theorem le_isNaN {x y : Float64} (h : x.le y = true) : x.isNaN = false ∧ y.isNaN = false := by
  simp [le] at h
  exact ⟨h.1.1, h.1.2⟩

theorem key_of_isInf {x : Float64} {n : Bool} (h : x.isInf n = true) :
    x = Inf n := by
  rcases x with ⟨_ | n' | ⟨n', m⟩, hv⟩ <;> simp [isInf] at h
  subst h
  rfl

theorem key_Inf (n : Bool) : (Inf n).key = signedMag n overflowMag := rfl

theorem Min_key {x y : Float64} (hx : x.isNaN = false) (hy : y.isNaN = false) :
    (Min x y).isNaN = false ∧ (Min x y).key = min x.key y.key := by
  have bx := key_bounds x
  have bY := key_bounds y
  unfold Min
  by_cases h1 : (x.isInf true || y.isInf true) = true
  · rw [if_pos h1]
    refine ⟨rfl, ?_⟩
    rw [key_Inf]
    rcases Bool.or_eq_true _ _ ▸ h1 with h | h
    · rw [key_of_isInf h, key_Inf]; simp [signedMag] at *; omega
    · rw [key_of_isInf h, key_Inf]; simp [signedMag] at *; omega
  · rw [if_neg h1]
    have h2 : ¬ ((x.isNaN || y.isNaN) = true) := by simp [hx, hy]
    rw [if_neg h2]
    by_cases h3 : (x.eq zero && x.eq y) = true
    · rw [if_pos h3]
      rw [Bool.and_eq_true] at h3
      have e1 := (eq_iff hx (y := zero) rfl).mp h3.1
      have e2 := (eq_iff hx hy).mp h3.2
      split_ifs
      · exact ⟨hx, by omega⟩
      · exact ⟨hy, by omega⟩
    · rw [if_neg h3]
      by_cases h4 : x.lt y = true
      · rw [if_pos h4]
        have := (lt_iff hx hy).mp h4
        exact ⟨hx, by omega⟩
      · rw [if_neg h4]
        have : ¬ x.key < y.key := fun h => h4 ((lt_iff hx hy).mpr h)
        exact ⟨hy, by omega⟩

theorem Max_key {x y : Float64} (hx : x.isNaN = false) (hy : y.isNaN = false) :
    (Max x y).isNaN = false ∧ (Max x y).key = max x.key y.key := by
  have bx := key_bounds x
  have bY := key_bounds y
  unfold Max
  by_cases h1 : (x.isInf false || y.isInf false) = true
  · rw [if_pos h1]
    refine ⟨rfl, ?_⟩
    rw [key_Inf]
    rcases Bool.or_eq_true _ _ ▸ h1 with h | h
    · rw [key_of_isInf h, key_Inf]; simp [signedMag] at *; omega
    · rw [key_of_isInf h, key_Inf]; simp [signedMag] at *; omega
  · rw [if_neg h1]
    have h2 : ¬ ((x.isNaN || y.isNaN) = true) := by simp [hx, hy]
    rw [if_neg h2]
    by_cases h3 : (x.eq zero && x.eq y) = true
    · rw [if_pos h3]
      rw [Bool.and_eq_true] at h3
      have e1 := (eq_iff hx (y := zero) rfl).mp h3.1
      have e2 := (eq_iff hx hy).mp h3.2
      split_ifs
      · exact ⟨hy, by omega⟩
      · exact ⟨hx, by omega⟩
    · rw [if_neg h3]
      by_cases h4 : y.lt x = true
      · rw [if_pos h4]
        have := (lt_iff hy hx).mp h4
        exact ⟨hx, by omega⟩
      · rw [if_neg h4]
        have : ¬ y.key < x.key := fun h => h4 ((lt_iff hy hx).mpr h)
        exact ⟨hy, by omega⟩

end Float64

/-! ## Addition and subtraction -/

theorem roundMag_zero : roundMag 0 = 0 := roundMag_of_lt (by norm_num)

theorem F64.ofExact_valid (z : Int) (zn : Bool) : (F64.ofExact z zn).IsValid = true := by
  unfold F64.ofExact
  by_cases h1 : z = 0
  · rw [if_pos h1]
    simp only [F64.IsValid, roundMag_zero, decide_True, Bool.and_true, decide_eq_true_eq]
    exact overflowMag_pos
  · rw [if_neg h1]
    by_cases h2 : overflowMag ≤ roundMag z.natAbs
    · simp only [if_pos h2]; rfl
    · simp only [if_neg h2, F64.IsValid, roundMag_idem, decide_True, Bool.and_true,
        decide_eq_true_eq]
      omega

theorem F64.add_valid (a b : F64) : (F64.add a b).IsValid = true := by
  cases a <;> cases b <;> simp only [F64.add] <;> first
    | rfl
    | exact F64.ofExact_valid _ _
    | (split_ifs <;> rfl)

theorem F64.neg_valid (a : F64) : (F64.neg a).IsValid = a.IsValid := by
  cases a <;> rfl

namespace Float64

theorem add_raw (x y : Float64) : (add x y).raw = F64.add x.raw y.raw := by
  unfold add
  rw [dif_pos (F64.add_valid _ _)]

theorem neg_raw (x : Float64) : (neg x).raw = F64.neg x.raw := by
  unfold neg
  rw [dif_pos ((F64.neg_valid _).trans x.valid)]

theorem sub_raw (x y : Float64) : (sub x y).raw = F64.add x.raw (F64.neg y.raw) := by
  unfold sub
  rw [add_raw, neg_raw]



end Float64

theorem F64.ofExact_key (z : Int) (a : Bool) :
    (F64.ofExact z a).key =
      if z < 0 then -((min (roundMag z.natAbs) overflowMag : Nat) : Int)
      else ((min (roundMag z.natAbs) overflowMag : Nat) : Int) := by
  unfold F64.ofExact
  by_cases e1 : z = 0
  · subst e1
    simp [F64.key, signedMag, roundMag_zero]
  · rw [if_neg e1]
    by_cases o1 : overflowMag ≤ roundMag z.natAbs
    · simp only [if_pos o1, F64.key, signedMag, Nat.min_eq_right o1]
      by_cases s1 : z < 0 <;> simp [s1]
    · have o2 : roundMag z.natAbs ≤ overflowMag := by omega
      simp only [if_neg o1, F64.key, signedMag, Nat.min_eq_left o2]
      by_cases s1 : z < 0 <;> simp [s1]

theorem F64.ofExact_key_mono {z1 z2 : Int} (h : z1 ≤ z2) (a b : Bool) :
    (F64.ofExact z1 a).key ≤ (F64.ofExact z2 b).key := by
  have hm1 : z1.natAbs ≤ z2.natAbs → roundMag z1.natAbs ≤ roundMag z2.natAbs := roundMag_mono
  have hm2 : z2.natAbs ≤ z1.natAbs → roundMag z2.natAbs ≤ roundMag z1.natAbs := roundMag_mono
  rw [F64.ofExact_key, F64.ofExact_key]
  generalize roundMag z1.natAbs = r1 at *
  generalize roundMag z2.natAbs = r2 at *
  split_ifs <;> omega

theorem F64.ofExact_ne_nan (z : Int) (a : Bool) : F64.ofExact z a ≠ .nan := by
  unfold F64.ofExact
  by_cases e1 : z = 0
  · simp [e1]
  · simp only [if_neg e1]
    split_ifs <;> simp

theorem F64.ofExact_signedMag {n : Bool} {m : Nat} (hv : (F64.fin n m).IsValid = true) (a : Bool) :
    (F64.ofExact (signedMag n m) a).key = signedMag n m := by
  obtain ⟨h1, h2⟩ := F64.isValid_fin hv
  rw [F64.ofExact_key]
  have : (signedMag n m).natAbs = m := by cases n <;> simp [signedMag]
  rw [this, h2, Nat.min_eq_left (Nat.le_of_lt h1)]
  cases n <;> simp [signedMag]
  omega

namespace Float64

theorem zero_le_iff {R : Float64} : zero.le R = true ↔ R.isNaN = false ∧ 0 ≤ R.key := by
  simp [le, isNaN, key, zero, F64.key, F64.isNaN, signedMag]

theorem sub_key_le_add_key {X R : Float64} (hR : zero.le R = true)
    (h1 : (sub X R).isNaN = false) (h2 : (add X R).isNaN = false) :
    (sub X R).key ≤ (add X R).key := by
  have hO := overflowMag_pos
  obtain ⟨hRn, hRk⟩ := zero_le_iff.mp hR
  unfold key
  unfold isNaN at h1 h2 hRn
  unfold key at hRk
  rw [sub_raw] at h1 ⊢
  rw [add_raw] at h2 ⊢
  rcases X with ⟨_ | a | ⟨n, m⟩, vx⟩ <;> rcases R with ⟨_ | b | ⟨n', m'⟩, vr⟩ <;>
    simp only [F64.add, F64.neg] at *
  all_goals first
    | (simp [F64.isNaN] at h1; done)
    | (simp [F64.isNaN] at hRn; done)
    | exact Int.le_refl _
    | (apply F64.ofExact_key_mono
       cases n' <;> simp [F64.key, signedMag] at hRk ⊢
       omega)
    | (cases a <;> cases b <;> simp [F64.key, F64.isNaN, signedMag] at *)
    | (cases b <;> simp [F64.key, F64.isNaN, signedMag] at *
       omega)

end Float64

/-! ## The arithmetic on sample values -/

/-- The model on known binary64 facts: exact small sums, ties to even at
`2^53`, overflow to `+Inf`, signed zeros, `Inf - Inf`, and the special cases of
`math.Min` and `math.Max`. -/
theorem Float64.arithmetic_examples :
    Float64.add (Float64.ofInt 1) (Float64.ofInt 1) = Float64.ofInt 2 ∧
    Float64.sub (Float64.ofInt 0) (Float64.ofInt 5) = Float64.ofInt (-5) ∧
    Float64.add (Float64.ofInt (2 ^ 53)) (Float64.ofInt 1) = Float64.ofInt (2 ^ 53) ∧
    Float64.add (Float64.ofInt (2 ^ 53 + 2)) (Float64.ofInt 1) = Float64.ofInt (2 ^ 53 + 4) ∧
    Float64.add Float64.MaxFloat64 Float64.MaxFloat64 = Float64.Inf false ∧
    Float64.sub Float64.MaxFloat64 Float64.MaxFloat64 = Float64.zero ∧
    Float64.add Float64.negZero Float64.zero = Float64.zero ∧
    Float64.add Float64.negZero Float64.negZero = Float64.negZero ∧
    Float64.sub (Float64.Inf false) (Float64.Inf false) = Float64.NaN ∧
    Float64.neg Float64.MaxFloat64 = Float64.negMaxFloat64 ∧
    Float64.Min Float64.zero Float64.negZero = Float64.negZero ∧
    Float64.Max Float64.negZero Float64.zero = Float64.zero ∧
    Float64.Min (Float64.Inf true) Float64.NaN = Float64.Inf true ∧
    Float64.Min Float64.NaN Float64.zero = Float64.NaN ∧
    Float64.Min Float64.MaxFloat64 (Float64.Inf false) = Float64.MaxFloat64 := by
  decide!

/-! ## Folds of a minimum and of a maximum -/

/-- A left fold whose step takes the smaller key computes a greatest lower bound. -/
theorem foldl_min_spec (g : Float64 → Float64 → Float64)
    (hg : ∀ a x : Float64, a.isNaN = false → x.isNaN = false →
      (g a x).isNaN = false ∧ (g a x).key = min a.key x.key)
    (f : Circle → Float64) (cs : List Circle) :
    ∀ a : Float64, a.isNaN = false → (∀ c ∈ cs, (f c).isNaN = false) →
      (cs.foldl (fun m c => g m (f c)) a).isNaN = false ∧
      (cs.foldl (fun m c => g m (f c)) a).key ≤ a.key ∧
      (∀ c ∈ cs, (cs.foldl (fun m c => g m (f c)) a).key ≤ (f c).key) ∧
      (∀ z : Int, z ≤ a.key → (∀ c ∈ cs, z ≤ (f c).key) →
        z ≤ (cs.foldl (fun m c => g m (f c)) a).key) := by
  induction cs with
  | nil =>
    intro a ha _
    exact ⟨ha, Int.le_refl _, fun c hc => absurd hc (List.not_mem_nil c), fun z hz _ => hz⟩
  | cons d ds ih =>
    intro a ha hcs
    have hd : (f d).isNaN = false := hcs d (List.mem_cons_self d ds)
    have hds : ∀ c ∈ ds, (f c).isNaN = false := fun c hc => hcs c (List.mem_cons_of_mem d hc)
    obtain ⟨hn, hk⟩ := hg a (f d) ha hd
    obtain ⟨i1, i2, i3, i4⟩ := ih (g a (f d)) hn hds
    simp only [List.foldl_cons]
    refine ⟨i1, by omega, ?_, ?_⟩
    · intro c hc
      rcases List.mem_cons.mp hc with rfl | hc'
      · omega
      · exact i3 c hc'
    · intro z hz hall
      have h1 := hall d (List.mem_cons_self d ds)
      exact i4 z (by omega) (fun c hc => hall c (List.mem_cons_of_mem d hc))

/-- A left fold whose step takes the larger key computes a least upper bound. -/
theorem foldl_max_spec (g : Float64 → Float64 → Float64)
    (hg : ∀ a x : Float64, a.isNaN = false → x.isNaN = false →
      (g a x).isNaN = false ∧ (g a x).key = max a.key x.key)
    (f : Circle → Float64) (cs : List Circle) :
    ∀ a : Float64, a.isNaN = false → (∀ c ∈ cs, (f c).isNaN = false) →
      (cs.foldl (fun m c => g m (f c)) a).isNaN = false ∧
      a.key ≤ (cs.foldl (fun m c => g m (f c)) a).key ∧
      (∀ c ∈ cs, (f c).key ≤ (cs.foldl (fun m c => g m (f c)) a).key) ∧
      (∀ z : Int, a.key ≤ z → (∀ c ∈ cs, (f c).key ≤ z) →
        (cs.foldl (fun m c => g m (f c)) a).key ≤ z) := by
  induction cs with
  | nil =>
    intro a ha _
    exact ⟨ha, Int.le_refl _, fun c hc => absurd hc (List.not_mem_nil c), fun z hz _ => hz⟩
  | cons d ds ih =>
    intro a ha hcs
    have hd : (f d).isNaN = false := hcs d (List.mem_cons_self d ds)
    have hds : ∀ c ∈ ds, (f c).isNaN = false := fun c hc => hcs c (List.mem_cons_of_mem d hc)
    obtain ⟨hn, hk⟩ := hg a (f d) ha hd
    obtain ⟨i1, i2, i3, i4⟩ := ih (g a (f d)) hn hds
    simp only [List.foldl_cons]
    refine ⟨i1, by omega, ?_, ?_⟩
    · intro c hc
      rcases List.mem_cons.mp hc with rfl | hc'
      · omega
      · exact i3 c hc'
    · intro z hz hall
      have h1 := hall d (List.mem_cons_self d ds)
      exact i4 z (by omega) (fun c hc => hall c (List.mem_cons_of_mem d hc))

/-- The order-only step of `minOver` takes the smaller key. -/
theorem pickSmaller_key (a x : Float64) (ha : a.isNaN = false) (hx : x.isNaN = false) :
    (if x.lt a then x else a).isNaN = false ∧
      (if x.lt a then x else a).key = min a.key x.key := by
  by_cases h : x.lt a = true
  · rw [if_pos h]
    have := (Float64.lt_iff hx ha).mp h
    exact ⟨hx, by omega⟩
  · rw [if_neg h]
    have : ¬ x.key < a.key := fun h' => h ((Float64.lt_iff hx ha).mpr h')
    exact ⟨ha, by omega⟩

/-- The order-only step of `maxOver` takes the larger key. -/
theorem pickLarger_key (a x : Float64) (ha : a.isNaN = false) (hx : x.isNaN = false) :
    (if a.lt x then x else a).isNaN = false ∧
      (if a.lt x then x else a).key = max a.key x.key := by
  by_cases h : a.lt x = true
  · rw [if_pos h]
    have := (Float64.lt_iff ha hx).mp h
    exact ⟨hx, by omega⟩
  · rw [if_neg h]
    have : ¬ a.key < x.key := fun h' => h ((Float64.lt_iff ha hx).mpr h')
    exact ⟨ha, by omega⟩

/-! ## The accumulators of `CalculateBoundingBox` -/

theorem foldl_step_leftBottomX (cs : List Circle) : ∀ acc : BoxAcc,
    (cs.foldl BoxAcc.step acc).leftBottomX =
      cs.foldl (fun m c => Float64.Min m c.left) acc.leftBottomX := by
  induction cs with
  | nil => intro acc; rfl
  | cons d ds ih => intro acc; simp only [List.foldl_cons]; rw [ih]; rfl

theorem foldl_step_leftBottomY (cs : List Circle) : ∀ acc : BoxAcc,
    (cs.foldl BoxAcc.step acc).leftBottomY =
      cs.foldl (fun m c => Float64.Min m c.bottom) acc.leftBottomY := by
  induction cs with
  | nil => intro acc; rfl
  | cons d ds ih => intro acc; simp only [List.foldl_cons]; rw [ih]; rfl

theorem foldl_step_rightTopX (cs : List Circle) : ∀ acc : BoxAcc,
    (cs.foldl BoxAcc.step acc).rightTopX =
      cs.foldl (fun m c => Float64.Max m c.right) acc.rightTopX := by
  induction cs with
  | nil => intro acc; rfl
  | cons d ds ih => intro acc; simp only [List.foldl_cons]; rw [ih]; rfl

theorem foldl_step_rightTopY (cs : List Circle) : ∀ acc : BoxAcc,
    (cs.foldl BoxAcc.step acc).rightTopY =
      cs.foldl (fun m c => Float64.Max m c.top) acc.rightTopY := by
  induction cs with
  | nil => intro acc; rfl
  | cons d ds ih => intro acc; simp only [List.foldl_cons]; rw [ih]; rfl

/-- On a non-empty list the result is read off the four folds. -/
theorem CalculateBoundingBox_of_ne_nil {cs : List Circle} (h : cs ≠ []) :
    CalculateBoundingBox cs =
      { LeftBottom :=
          ⟨cs.foldl (fun m c => Float64.Min m c.left) Float64.MaxFloat64,
           cs.foldl (fun m c => Float64.Min m c.bottom) Float64.MaxFloat64⟩
        RightTop :=
          ⟨cs.foldl (fun m c => Float64.Max m c.right) Float64.negMaxFloat64,
           cs.foldl (fun m c => Float64.Max m c.top) Float64.negMaxFloat64⟩ } := by
  unfold CalculateBoundingBox
  have hl : ¬ cs.length = 0 := fun h0 => h (List.length_eq_zero.mp h0)
  rw [if_neg hl]
  simp only [foldl_step_leftBottomX, foldl_step_leftBottomY, foldl_step_rightTopX,
    foldl_step_rightTopY]
  rfl

/-! ## One coordinate of the bounding box -/

theorem key_MaxFloat64 : Float64.MaxFloat64.key = maxMag := rfl

theorem key_negMaxFloat64 : Float64.negMaxFloat64.key = -(maxMag : Int) := rfl

theorem key_le_maxMag_of_not_posInf {x : Float64} (hi : x.isInf false = false) :
    x.key ≤ maxMag := by
  have hO := overflowMag_pos
  rcases x with ⟨_ | n | ⟨n, m⟩, hv⟩
  · simp [Float64.key, F64.key]
  · cases n
    · simp [Float64.isInf] at hi
    · simp [Float64.key, F64.key, signedMag]; omega
  · have := mag_le_maxMag hv
    cases n <;> simp [Float64.key, F64.key, signedMag] <;> omega

theorem neg_maxMag_le_key_of_not_negInf {x : Float64} (hi : x.isInf true = false) :
    -(maxMag : Int) ≤ x.key := by
  have hO := overflowMag_pos
  rcases x with ⟨_ | n | ⟨n, m⟩, hv⟩
  · simp [Float64.key, F64.key]
  · cases n
    · simp [Float64.key, F64.key, signedMag]; omega
    · simp [Float64.isInf] at hi
  · have := mag_le_maxMag hv
    cases n <;> simp [Float64.key, F64.key, signedMag] <;> omega

/-- The running minimum is below every extent, when none is NaN. -/
theorem minFold_le (f : Circle → Float64) (cs : List Circle)
    (hnan : ∀ c ∈ cs, (f c).isNaN = false) (c : Circle) (hc : c ∈ cs) :
    (cs.foldl (fun m d => Float64.Min m (f d)) Float64.MaxFloat64).le (f c) = true := by
  obtain ⟨h1, _, h3, _⟩ :=
    foldl_min_spec Float64.Min (fun a x => Float64.Min_key) f cs Float64.MaxFloat64 rfl hnan
  exact (Float64.le_iff h1 (hnan c hc)).mpr (h3 c hc)

/-- The running maximum is above every extent, when none is NaN. -/
theorem le_maxFold (f : Circle → Float64) (cs : List Circle)
    (hnan : ∀ c ∈ cs, (f c).isNaN = false) (c : Circle) (hc : c ∈ cs) :
    (f c).le (cs.foldl (fun m d => Float64.Max m (f d)) Float64.negMaxFloat64) = true := by
  obtain ⟨h1, _, h3, _⟩ :=
    foldl_max_spec Float64.Max (fun a x => Float64.Max_key) f cs Float64.negMaxFloat64 rfl hnan
  exact (Float64.le_iff (hnan c hc) h1).mpr (h3 c hc)

/-- The reference minimum is not NaN and is a lower bound of the extents. -/
theorem minOver_spec (f : Circle → Float64) (cs : List Circle) (hne : cs ≠ [])
    (hnan : ∀ c ∈ cs, (f c).isNaN = false) :
    (minOver f cs).isNaN = false ∧ (∀ c ∈ cs, (minOver f cs).key ≤ (f c).key) ∧
      (∀ z : Int, (∀ c ∈ cs, z ≤ (f c).key) → z ≤ (minOver f cs).key) := by
  cases cs with
  | nil => exact absurd rfl hne
  | cons d ds =>
    have hd := hnan d (List.mem_cons_self d ds)
    have hds : ∀ c ∈ ds, (f c).isNaN = false := fun c hc => hnan c (List.mem_cons_of_mem d hc)
    obtain ⟨h1, h2, h3, h4⟩ :=
      foldl_min_spec (fun m x => if x.lt m then x else m) pickSmaller_key f ds (f d) hd hds
    refine ⟨h1, ?_, ?_⟩
    · intro c hc
      rcases List.mem_cons.mp hc with rfl | hc'
      · exact h2
      · exact h3 c hc'
    · intro z hall
      exact h4 z (hall d (List.mem_cons_self d ds))
        (fun c hc => hall c (List.mem_cons_of_mem d hc))

/-- The reference maximum is not NaN and is an upper bound of the extents. -/
theorem maxOver_spec (f : Circle → Float64) (cs : List Circle) (hne : cs ≠ [])
    (hnan : ∀ c ∈ cs, (f c).isNaN = false) :
    (maxOver f cs).isNaN = false ∧ (∀ c ∈ cs, (f c).key ≤ (maxOver f cs).key) ∧
      (∀ z : Int, (∀ c ∈ cs, (f c).key ≤ z) → (maxOver f cs).key ≤ z) := by
  cases cs with
  | nil => exact absurd rfl hne
  | cons d ds =>
    have hd := hnan d (List.mem_cons_self d ds)
    have hds : ∀ c ∈ ds, (f c).isNaN = false := fun c hc => hnan c (List.mem_cons_of_mem d hc)
    obtain ⟨h1, h2, h3, h4⟩ :=
      foldl_max_spec (fun m x => if m.lt x then x else m) pickLarger_key f ds (f d) hd hds
    refine ⟨h1, ?_, ?_⟩
    · intro c hc
      rcases List.mem_cons.mp hc with rfl | hc'
      · exact h2
      · exact h3 c hc'
    · intro z hall
      exact h4 z (hall d (List.mem_cons_self d ds))
        (fun c hc => hall c (List.mem_cons_of_mem d hc))

/-- The running minimum started at `MaxFloat64` equals the reference minimum. -/
theorem minFold_eq_minOver (f : Circle → Float64) (cs : List Circle) (hne : cs ≠ [])
    (hnan : ∀ c ∈ cs, (f c).isNaN = false)
    (hsent : cs.any (fun c => !(f c).isInf false) = true) :
    (cs.foldl (fun m d => Float64.Min m (f d)) Float64.MaxFloat64).eq (minOver f cs) = true := by
  obtain ⟨r1, r2, r3⟩ := minOver_spec f cs hne hnan
  obtain ⟨h1, _, h3, h4⟩ :=
    foldl_min_spec Float64.Min (fun a x => Float64.Min_key) f cs Float64.MaxFloat64 rfl hnan
  obtain ⟨d, hd, hdi⟩ := List.any_eq_true.mp hsent
  have hdk : (f d).key ≤ maxMag := key_le_maxMag_of_not_posInf (by simpa using hdi)
  have hrd := r2 d hd
  have a1 := r3 _ h3
  have a2 := h4 (minOver f cs).key (by rw [key_MaxFloat64]; omega) r2
  exact (Float64.eq_iff h1 r1).mpr (by omega)

/-- The running maximum started at `-MaxFloat64` equals the reference maximum. -/
theorem maxFold_eq_maxOver (f : Circle → Float64) (cs : List Circle) (hne : cs ≠ [])
    (hnan : ∀ c ∈ cs, (f c).isNaN = false)
    (hsent : cs.any (fun c => !(f c).isInf true) = true) :
    (cs.foldl (fun m d => Float64.Max m (f d)) Float64.negMaxFloat64).eq (maxOver f cs) = true := by
  obtain ⟨r1, r2, r3⟩ := maxOver_spec f cs hne hnan
  obtain ⟨h1, _, h3, h4⟩ :=
    foldl_max_spec Float64.Max (fun a x => Float64.Max_key) f cs Float64.negMaxFloat64 rfl hnan
  obtain ⟨d, hd, hdi⟩ := List.any_eq_true.mp hsent
  have hdk : -(maxMag : Int) ≤ (f d).key := neg_maxMag_le_key_of_not_negInf (by simpa using hdi)
  have hrd := r2 d hd
  have a1 := r3 _ h3
  have a2 := h4 (maxOver f cs).key (by rw [key_negMaxFloat64]; omega) r2
  exact (Float64.eq_iff h1 r1).mpr (by omega)

theorem extentsNotNaN_iff (c : Circle) : c.extentsNotNaN = true ↔
    c.left.isNaN = false ∧ c.bottom.isNaN = false ∧ c.right.isNaN = false ∧
      c.top.isNaN = false := by
  simp [Circle.extentsNotNaN, and_assoc]

/-! ## A radius of zero -/

theorem F64.ofExact_isNaN (z : Int) (a : Bool) : (F64.ofExact z a).isNaN = false := by
  have := F64.ofExact_ne_nan z a
  cases h : F64.ofExact z a <;> simp_all [F64.isNaN]

theorem signedMag_not (n : Bool) (m : Nat) : signedMag (!n) m = -signedMag n m := by
  cases n <;> simp [signedMag]

theorem Float64.eq_zero_raw {R : Float64} (h : R.eq Float64.zero = true) :
    ∃ n, R.raw = .fin n 0 := by
  have hO := overflowMag_pos
  rcases R with ⟨_ | n | ⟨n, m⟩, hv⟩
  · simp [Float64.eq, Float64.isNaN, F64.isNaN] at h
  · exfalso
    cases n <;>
      simp [Float64.eq, Float64.isNaN, F64.isNaN, Float64.key, F64.key, Float64.zero,
        signedMag] at h <;> omega
  · refine ⟨n, ?_⟩
    cases n <;>
      simp [Float64.eq, Float64.isNaN, F64.isNaN, Float64.key, F64.key, Float64.zero,
        signedMag] at h <;> simp [h]

theorem Float64.sub_zero_key {X R : Float64} (hX : X.isFinite = true)
    (hR : R.eq Float64.zero = true) :
    (Float64.sub X R).isNaN = false ∧ (Float64.sub X R).key = X.key := by
  obtain ⟨n, hn⟩ := Float64.eq_zero_raw hR
  rcases X with ⟨_ | a | ⟨nx, mx⟩, vx⟩
  · simp [Float64.isFinite] at hX
  · simp [Float64.isFinite] at hX
  · unfold Float64.isNaN Float64.key
    rw [Float64.sub_raw, hn]
    have hz : signedMag nx mx + signedMag (!n) 0 = signedMag nx mx := by
      cases n <;> simp [signedMag]
    simp only [F64.add, F64.neg, hz]
    exact ⟨F64.ofExact_isNaN _ _, F64.ofExact_signedMag vx _⟩

theorem Float64.add_zero_key {X R : Float64} (hX : X.isFinite = true)
    (hR : R.eq Float64.zero = true) :
    (Float64.add X R).isNaN = false ∧ (Float64.add X R).key = X.key := by
  obtain ⟨n, hn⟩ := Float64.eq_zero_raw hR
  rcases X with ⟨_ | a | ⟨nx, mx⟩, vx⟩
  · simp [Float64.isFinite] at hX
  · simp [Float64.isFinite] at hX
  · unfold Float64.isNaN Float64.key
    rw [Float64.add_raw, hn]
    have hz : signedMag nx mx + signedMag n 0 = signedMag nx mx := by
      cases n <;> simp [signedMag]
    simp only [F64.add, hz]
    exact ⟨F64.ofExact_isNaN _ _, F64.ofExact_signedMag vx _⟩

theorem Float64.key_of_isFinite {X : Float64} (hX : X.isFinite = true) :
    X.isNaN = false ∧ -(maxMag : Int) ≤ X.key ∧ X.key ≤ maxMag := by
  rcases X with ⟨_ | a | ⟨nx, mx⟩, vx⟩
  · simp [Float64.isFinite] at hX
  · simp [Float64.isFinite] at hX
  · have := mag_le_maxMag vx
    refine ⟨rfl, ?_, ?_⟩ <;> cases nx <;> simp [Float64.key, F64.key, signedMag] <;> omega

theorem F64.isNaN_nan : F64.nan.isNaN = true := rfl

theorem F64.isNaN_inf (n : Bool) : (F64.inf n).isNaN = false := rfl

theorem F64.isNaN_fin (n : Bool) (m : Nat) : (F64.fin n m).isNaN = false := rfl

theorem F64.key_inf (n : Bool) : (F64.inf n).key = signedMag n overflowMag := rfl

theorem F64.key_fin (n : Bool) (m : Nat) : (F64.fin n m).key = signedMag n m := rfl

/-- Two non-NaN values at the same finite position differ by zero. -/
theorem Float64.sub_eq_zero_of_key_eq {a b : Float64} (ha : a.isNaN = false)
    (hb : b.isNaN = false) (hk : a.key = b.key) (hlo : -(maxMag : Int) ≤ a.key)
    (hhi : a.key ≤ maxMag) : (Float64.sub a b).eq Float64.zero = true := by
  have hM := maxMag_lt_overflowMag
  have hsub : (Float64.sub a b).raw.isNaN = false ∧ (Float64.sub a b).raw.key = 0 := by
    rw [Float64.sub_raw]
    rcases a with ⟨_ | n | ⟨n, m⟩, va⟩ <;> rcases b with ⟨_ | n' | ⟨n', m'⟩, vb⟩ <;>
      simp only [Float64.isNaN, Float64.key, F64.isNaN_nan, F64.isNaN_inf, F64.isNaN_fin,
        F64.key_inf, F64.key_fin, F64.add, F64.neg] at *
    all_goals first
      | (simp at ha)
      | (simp at hb)
      | (exfalso; cases n <;> simp [signedMag] at hlo hhi <;> omega)
      | (exfalso; cases n' <;> simp [signedMag] at hk hlo hhi <;> omega)
      | (refine ⟨F64.ofExact_isNaN _ _, ?_⟩
         rw [signedMag_not, hk, F64.ofExact_key]
         simp [roundMag_zero])
  simp [Float64.eq, Float64.isNaN, Float64.key, hsub.1, hsub.2, Float64.zero, F64.isNaN_fin,
    F64.key_fin, signedMag]

/-- Finite operands never add or subtract to NaN. -/
theorem extentsNotNaN_of_isFinite {c : Circle} (h : c.isFinite = true) :
    c.extentsNotNaN = true := by
  have hfin : ∀ x y : Float64, x.isFinite = true → y.isFinite = true →
      (Float64.add x y).isNaN = false ∧ (Float64.sub x y).isNaN = false := by
    intro x y hx hy
    unfold Float64.isNaN
    rw [Float64.add_raw, Float64.sub_raw]
    rcases x with ⟨_ | a | ⟨n, m⟩, vx⟩ <;> rcases y with ⟨_ | b | ⟨n', m'⟩, vy⟩ <;>
      simp [Float64.isFinite] at hx hy
    exact ⟨F64.ofExact_isNaN _ _, F64.ofExact_isNaN _ _⟩
  simp only [Circle.isFinite, Bool.and_eq_true] at h
  obtain ⟨⟨hX, hY⟩, hR⟩ := h
  rw [extentsNotNaN_iff]
  exact ⟨(hfin _ _ hX hR).2, (hfin _ _ hY hR).2, (hfin _ _ hX hR).1, (hfin _ _ hY hR).1⟩

/-- With a finite centre coordinate and a radius `>= 0`, the lower extent is
at or below the coordinate and the upper extent at or above it. -/
theorem Float64.sub_key_le_key_le_add {X R : Float64} (hX : X.isFinite = true)
    (hR : Float64.zero.le R = true) :
    (Float64.sub X R).key ≤ X.key ∧ X.key ≤ (Float64.add X R).key := by
  have hO := overflowMag_pos
  obtain ⟨hRn, hRk⟩ := Float64.zero_le_iff.mp hR
  obtain ⟨_, xlo, xhi⟩ := Float64.key_of_isFinite hX
  have hM := maxMag_lt_overflowMag
  unfold Float64.key at hRk xlo xhi ⊢
  unfold Float64.isNaN at hRn
  rw [Float64.sub_raw, Float64.add_raw]
  rcases X with ⟨_ | a | ⟨n, m⟩, vx⟩
  · simp [Float64.isFinite] at hX
  · simp [Float64.isFinite] at hX
  · rcases R with ⟨_ | b | ⟨n', m'⟩, vr⟩
    · simp [F64.isNaN_nan] at hRn
    · cases b
      · simp only [F64.add, F64.neg, F64.key_inf, F64.key_fin] at *
        simp only [signedMag] at *
        simp at *
        omega
      · simp only [F64.key_inf, signedMag] at hRk
        simp at hRk
        omega
    · simp only [F64.add, F64.neg, F64.key_fin] at *
      have h1 := @F64.ofExact_key_mono (signedMag n m + signedMag (!n') m')
        (signedMag n m) (by rw [signedMag_not]; omega) (n && !n') false
      have h2 := @F64.ofExact_key_mono (signedMag n m)
        (signedMag n m + signedMag n' m') (by omega) false (n && n')
      rw [F64.ofExact_signedMag vx] at h1 h2
      exact ⟨h1, h2⟩

/-- Circles with finite fields and radii `>= 0` never show the sentinels. -/
theorem sentinelFree_of_isFinite {cs : List Circle} (hne : cs ≠ [])
    (hfin : ∀ c ∈ cs, c.isFinite = true)
    (hR : ∀ c ∈ cs, Float64.zero.le c.Radius = true) : sentinelFree cs = true := by
  have hO := overflowMag_pos
  have hM := maxMag_lt_overflowMag
  cases cs with
  | nil => exact absurd rfl hne
  | cons d ds =>
    have hd : d ∈ d :: ds := List.mem_cons_self d ds
    have hf := hfin d hd
    simp only [Circle.isFinite, Bool.and_eq_true] at hf
    obtain ⟨⟨hX, hY⟩, _⟩ := hf
    obtain ⟨x1, x2⟩ := Float64.sub_key_le_key_le_add hX (hR d hd)
    obtain ⟨y1, y2⟩ := Float64.sub_key_le_key_le_add hY (hR d hd)
    obtain ⟨_, xlo, xhi⟩ := Float64.key_of_isFinite hX
    obtain ⟨_, ylo, yhi⟩ := Float64.key_of_isFinite hY
    have notPos : ∀ v : Float64, v.key ≤ maxMag → (!v.isInf false) = true := by
      intro v hv
      cases hi : v.isInf false
      · rfl
      · rw [Float64.key_of_isInf hi, Float64.key_Inf] at hv
        simp [signedMag] at hv
        omega
    have notNeg : ∀ v : Float64, -(maxMag : Int) ≤ v.key → (!v.isInf true) = true := by
      intro v hv
      cases hi : v.isInf true
      · rfl
      · rw [Float64.key_of_isInf hi, Float64.key_Inf] at hv
        simp [signedMag] at hv
        omega
    simp only [sentinelFree, Bool.and_eq_true, List.any_eq_true]
    exact ⟨⟨⟨⟨d, hd, notPos _ (by unfold Circle.left; omega)⟩,
      ⟨d, hd, notPos _ (by unfold Circle.bottom; omega)⟩⟩,
      ⟨d, hd, notNeg _ (by unfold Circle.right; omega)⟩⟩,
      ⟨d, hd, notNeg _ (by unfold Circle.top; omega)⟩⟩

/-! ## The bounding box in general -/

/-- The rectangle bounds the computed extents of every circle, when no extent is NaN. -/
theorem contains_of_extentsNotNaN (cs : List Circle) (hne : cs ≠ [])
    (hnan : ∀ c ∈ cs, c.extentsNotNaN = true) :
    ∀ c ∈ cs,
      (CalculateBoundingBox cs).LeftBottom.X.le (Float64.sub c.X c.Radius) = true ∧
      (CalculateBoundingBox cs).LeftBottom.Y.le (Float64.sub c.Y c.Radius) = true ∧
      (Float64.add c.X c.Radius).le (CalculateBoundingBox cs).RightTop.X = true ∧
      (Float64.add c.Y c.Radius).le (CalculateBoundingBox cs).RightTop.Y = true := by
  intro c hc
  rw [CalculateBoundingBox_of_ne_nil hne]
  exact ⟨minFold_le Circle.left cs (fun d hd => ((extentsNotNaN_iff d).mp (hnan d hd)).1) c hc,
    minFold_le Circle.bottom cs (fun d hd => ((extentsNotNaN_iff d).mp (hnan d hd)).2.1) c hc,
    le_maxFold Circle.right cs (fun d hd => ((extentsNotNaN_iff d).mp (hnan d hd)).2.2.1) c hc,
    le_maxFold Circle.top cs (fun d hd => ((extentsNotNaN_iff d).mp (hnan d hd)).2.2.2) c hc⟩

/-- The computed rectangle equals the per-axis reference, when no extent is NaN
and the sentinels do not show. -/
theorem eq_reference_of_sentinelFree (cs : List Circle) (hne : cs ≠ [])
    (hnan : ∀ c ∈ cs, c.extentsNotNaN = true) (hsent : sentinelFree cs = true) :
    (CalculateBoundingBox cs).LeftBottom.X.eq (minOver Circle.left cs) = true ∧
    (CalculateBoundingBox cs).LeftBottom.Y.eq (minOver Circle.bottom cs) = true ∧
    (CalculateBoundingBox cs).RightTop.X.eq (maxOver Circle.right cs) = true ∧
    (CalculateBoundingBox cs).RightTop.Y.eq (maxOver Circle.top cs) = true := by
  rw [CalculateBoundingBox_of_ne_nil hne]
  simp only [sentinelFree, Bool.and_eq_true] at hsent
  obtain ⟨⟨⟨s1, s2⟩, s3⟩, s4⟩ := hsent
  exact ⟨minFold_eq_minOver Circle.left cs hne
      (fun d hd => ((extentsNotNaN_iff d).mp (hnan d hd)).1) s1,
    minFold_eq_minOver Circle.bottom cs hne
      (fun d hd => ((extentsNotNaN_iff d).mp (hnan d hd)).2.1) s2,
    maxFold_eq_maxOver Circle.right cs hne
      (fun d hd => ((extentsNotNaN_iff d).mp (hnan d hd)).2.2.1) s3,
    maxFold_eq_maxOver Circle.top cs hne
      (fun d hd => ((extentsNotNaN_iff d).mp (hnan d hd)).2.2.2) s4⟩

/-- The computed rectangle is well-formed, when every radius is `>= 0` and no
extent is NaN. -/
theorem wellFormed_of_extentsNotNaN (cs : List Circle)
    (hR : ∀ c ∈ cs, Float64.zero.le c.Radius = true)
    (hnan : ∀ c ∈ cs, c.extentsNotNaN = true) :
    (CalculateBoundingBox cs).LeftBottom.X.le (CalculateBoundingBox cs).RightTop.X = true ∧
    (CalculateBoundingBox cs).LeftBottom.Y.le (CalculateBoundingBox cs).RightTop.Y = true := by
  cases cs with
  | nil => exact ⟨by decide!, by decide!⟩
  | cons d ds =>
    have hd : d ∈ d :: ds := List.mem_cons_self d ds
    obtain ⟨n1, n2, n3, n4⟩ := (extentsNotNaN_iff d).mp (hnan d hd)
    rw [CalculateBoundingBox_of_ne_nil (List.cons_ne_nil d ds)]
    obtain ⟨a1, _, a3, _⟩ := foldl_min_spec Float64.Min (fun a x => Float64.Min_key)
      Circle.left (d :: ds) Float64.MaxFloat64 rfl
      (fun c hc => ((extentsNotNaN_iff c).mp (hnan c hc)).1)
    obtain ⟨b1, _, b3, _⟩ := foldl_min_spec Float64.Min (fun a x => Float64.Min_key)
      Circle.bottom (d :: ds) Float64.MaxFloat64 rfl
      (fun c hc => ((extentsNotNaN_iff c).mp (hnan c hc)).2.1)
    obtain ⟨c1, _, c3, _⟩ := foldl_max_spec Float64.Max (fun a x => Float64.Max_key)
      Circle.right (d :: ds) Float64.negMaxFloat64 rfl
      (fun c hc => ((extentsNotNaN_iff c).mp (hnan c hc)).2.2.1)
    obtain ⟨d1, _, d3, _⟩ := foldl_max_spec Float64.Max (fun a x => Float64.Max_key)
      Circle.top (d :: ds) Float64.negMaxFloat64 rfl
      (fun c hc => ((extentsNotNaN_iff c).mp (hnan c hc)).2.2.2)
    have hx : d.left.key ≤ d.right.key := Float64.sub_key_le_add_key (hR d hd) n1 n3
    have hy : d.bottom.key ≤ d.top.key := Float64.sub_key_le_add_key (hR d hd) n2 n4
    have e1 := a3 d hd
    have e2 := b3 d hd
    have e3 := c3 d hd
    have e4 := d3 d hd
    exact ⟨(Float64.le_iff a1 c1).mpr (by omega), (Float64.le_iff b1 d1).mpr (by omega)⟩

/-- Values the program does not receive: with the negative radius
`-MaxFloat64` the left extent overflows to `+Inf` and the result keeps the
initial `MaxFloat64`; with a NaN coordinate the result is NaN. -/
theorem outside_data_model_examples :
    Float64.zero.le overflowCircle.Radius = false ∧
    minOver Circle.left [overflowCircle] = Float64.Inf false ∧
    (CalculateBoundingBox [overflowCircle]).LeftBottom.X = Float64.MaxFloat64 ∧
    nanCircle.isFinite = false ∧
    (CalculateBoundingBox [nanCircle]).LeftBottom.X = Float64.NaN := by
  decide!

/-! ## The claims about `CalculateBoundingBox`

The circles are those the program can receive: `main` passes to
`CalculateBoundingBox` what `json.Unmarshal` decoded, so `X`, `Y` and `Radius`
are finite numbers; the data model has `Radius >= 0`. -/

/-- C1, amended: for every non-empty list of circles with finite fields, the
computed rectangle bounds the extents of every circle as `float64` arithmetic
gives them: `LeftBottom.X <= X - Radius`, `LeftBottom.Y <= Y - Radius`,
`RightTop.X >= X + Radius`, `RightTop.Y >= Y + Radius`, where `-` and `+` are
Go's rounded operations; and it contains the full disc of every circle whose
four extents are computed without rounding error. -/
theorem boundingBox_contains (cs : List Circle) (hne : cs ≠ [])
    (hfin : ∀ c ∈ cs, c.isFinite = true) :
    ∀ c ∈ cs,
      ((CalculateBoundingBox cs).LeftBottom.X.le (Float64.sub c.X c.Radius) = true ∧
        (CalculateBoundingBox cs).LeftBottom.Y.le (Float64.sub c.Y c.Radius) = true ∧
        (Float64.add c.X c.Radius).le (CalculateBoundingBox cs).RightTop.X = true ∧
        (Float64.add c.Y c.Radius).le (CalculateBoundingBox cs).RightTop.Y = true) ∧
      (c.extentsExact = true → (CalculateBoundingBox cs).containsExactDisc c = true) := by
  intro c hc
  have h := contains_of_extentsNotNaN cs hne
    (fun d hd => extentsNotNaN_of_isFinite (hfin d hd)) c hc
  refine ⟨h, ?_⟩
  intro hex
  obtain ⟨h1, h2, h3, h4⟩ := h
  have k1 := (Float64.le_iff (Float64.le_isNaN h1).1 (Float64.le_isNaN h1).2).mp h1
  have k2 := (Float64.le_iff (Float64.le_isNaN h2).1 (Float64.le_isNaN h2).2).mp h2
  have k3 := (Float64.le_iff (Float64.le_isNaN h3).1 (Float64.le_isNaN h3).2).mp h3
  have k4 := (Float64.le_iff (Float64.le_isNaN h4).1 (Float64.le_isNaN h4).2).mp h4
  simp only [Circle.extentsExact, Bool.and_eq_true, decide_eq_true_eq, Circle.left,
    Circle.bottom, Circle.right, Circle.top] at hex
  obtain ⟨⟨⟨e1, e2⟩, e3⟩, e4⟩ := hex
  simp only [Rectangle.containsExactDisc, Bool.and_eq_true, decide_eq_true_eq]
  exact ⟨⟨⟨by omega, by omega⟩, by omega⟩, by omega⟩

/-- C1 at the two circles `(0,0) r=1` and `(10,0) r=1`, whose extents are exact. -/
theorem boundingBox_contains_witness :
    ([circleA, circleB] ≠ [] ∧ ∀ c ∈ [circleA, circleB], c.isFinite = true) ∧
    (∀ c ∈ [circleA, circleB],
      ((CalculateBoundingBox [circleA, circleB]).LeftBottom.X.le
          (Float64.sub c.X c.Radius) = true ∧
        (CalculateBoundingBox [circleA, circleB]).LeftBottom.Y.le
          (Float64.sub c.Y c.Radius) = true ∧
        (Float64.add c.X c.Radius).le
          (CalculateBoundingBox [circleA, circleB]).RightTop.X = true ∧
        (Float64.add c.Y c.Radius).le
          (CalculateBoundingBox [circleA, circleB]).RightTop.Y = true) ∧
      (c.extentsExact = true →
        (CalculateBoundingBox [circleA, circleB]).containsExactDisc c = true)) ∧
    circleA.extentsExact = true ∧ circleB.extentsExact = true :=
  ⟨⟨by decide!, by decide!⟩,
    boundingBox_contains [circleA, circleB] (by decide!) (by decide!), by decide!, by decide!⟩

/-- C1 as stated fails on a circle the program can receive: for
`{"x": 0.7, "y": 0, "radius": 0.1}` (finite fields, radius `>= 0`) the
subtraction `0.7 - 0.1` rounds up to the `float64` `0.6`, which becomes
`LeftBottom.X`; the exact left extent of the disc lies strictly to the left of
it, so the rectangle does not contain the full disc. -/
theorem boundingBox_contains_fails_on_rounding :
    [roundingCircle] ≠ [] ∧
    roundingCircle.isFinite = true ∧
    Float64.zero.le roundingCircle.Radius = true ∧
    (CalculateBoundingBox [roundingCircle]).LeftBottom.X =
      Float64.ofMag false (0x13333333333333 * 2 ^ 1021) ∧
    roundingCircle.exactLeft < (CalculateBoundingBox [roundingCircle]).LeftBottom.X.key ∧
    (CalculateBoundingBox [roundingCircle]).containsExactDisc roundingCircle = false ∧
    roundingCircle.extentsExact = false := by
  decide!

/-- C3: for every non-empty list of circles with finite fields and radii
`>= 0`, the computed rectangle equals (Go's `==`, coordinate by coordinate) the
reference computed per axis: `LeftBottom.X` is the minimum of `X - Radius`,
`LeftBottom.Y` the minimum of `Y - Radius`, `RightTop.X` the maximum of
`X + Radius`, `RightTop.Y` the maximum of `Y + Radius`. The circle `(0,0) r=5`
gives `(-5,-5)-(5,5)`; the circles `(0,0) r=1` and `(10,0) r=1` give
`(-1,-1)-(11,1)`. -/
theorem boundingBox_eq_reference :
    (∀ cs : List Circle, cs ≠ [] → (∀ c ∈ cs, c.isFinite = true) →
      (∀ c ∈ cs, Float64.zero.le c.Radius = true) →
      (CalculateBoundingBox cs).LeftBottom.X.eq (minOver Circle.left cs) = true ∧
      (CalculateBoundingBox cs).LeftBottom.Y.eq (minOver Circle.bottom cs) = true ∧
      (CalculateBoundingBox cs).RightTop.X.eq (maxOver Circle.right cs) = true ∧
      (CalculateBoundingBox cs).RightTop.Y.eq (maxOver Circle.top cs) = true) ∧
    CalculateBoundingBox [circle5] = Rectangle.ofInts (-5) (-5) 5 5 ∧
    CalculateBoundingBox [circleA, circleB] = Rectangle.ofInts (-1) (-1) 11 1 := by
  refine ⟨?_, by decide!, by decide!⟩
  intro cs hne hfin hR
  exact eq_reference_of_sentinelFree cs hne
    (fun c hc => extentsNotNaN_of_isFinite (hfin c hc)) (sentinelFree_of_isFinite hne hfin hR)

/-- C3 at the two circles `(0,0) r=1` and `(10,0) r=1`. -/
theorem boundingBox_eq_reference_witness :
    ([circleA, circleB] ≠ [] ∧ (∀ c ∈ [circleA, circleB], c.isFinite = true) ∧
      ∀ c ∈ [circleA, circleB], Float64.zero.le c.Radius = true) ∧
    (CalculateBoundingBox [circleA, circleB]).LeftBottom.X.eq
      (minOver Circle.left [circleA, circleB]) = true ∧
    (CalculateBoundingBox [circleA, circleB]).LeftBottom.Y.eq
      (minOver Circle.bottom [circleA, circleB]) = true ∧
    (CalculateBoundingBox [circleA, circleB]).RightTop.X.eq
      (maxOver Circle.right [circleA, circleB]) = true ∧
    (CalculateBoundingBox [circleA, circleB]).RightTop.Y.eq
      (maxOver Circle.top [circleA, circleB]) = true :=
  ⟨⟨by decide!, by decide!, by decide!⟩,
    boundingBox_eq_reference.1 [circleA, circleB] (by decide!) (by decide!) (by decide!)⟩

/-- C4: on the empty list `CalculateBoundingBox` returns the zero-valued
rectangle, `LeftBottom = (0,0)` and `RightTop = (0,0)`; the function has no
error result and is total. -/
theorem boundingBox_nil :
    CalculateBoundingBox [] =
      { LeftBottom := { X := Float64.zero, Y := Float64.zero }
        RightTop := { X := Float64.zero, Y := Float64.zero } } := by
  rfl

/-- C5: for every circle with finite `X` and `Y` and `Radius == 0`, the
rectangle of the one-circle list collapses to the centre: both corners equal
`(X, Y)` (Go's `==`), and its width and height are zero. -/
theorem boundingBox_radius_zero (c : Circle) (hR : c.Radius.eq Float64.zero = true)
    (hX : c.X.isFinite = true) (hY : c.Y.isFinite = true) :
    (CalculateBoundingBox [c]).LeftBottom.X.eq c.X = true ∧
    (CalculateBoundingBox [c]).LeftBottom.Y.eq c.Y = true ∧
    (CalculateBoundingBox [c]).RightTop.X.eq c.X = true ∧
    (CalculateBoundingBox [c]).RightTop.Y.eq c.Y = true ∧
    (Float64.sub (CalculateBoundingBox [c]).RightTop.X
      (CalculateBoundingBox [c]).LeftBottom.X).eq Float64.zero = true ∧
    (Float64.sub (CalculateBoundingBox [c]).RightTop.Y
      (CalculateBoundingBox [c]).LeftBottom.Y).eq Float64.zero = true := by
  rw [CalculateBoundingBox_of_ne_nil (List.cons_ne_nil c [])]
  simp only [List.foldl_cons, List.foldl_nil, Circle.left, Circle.bottom, Circle.right,
    Circle.top]
  obtain ⟨xn, xlo, xhi⟩ := Float64.key_of_isFinite hX
  obtain ⟨yn, ylo, yhi⟩ := Float64.key_of_isFinite hY
  obtain ⟨l1, l2⟩ := Float64.sub_zero_key hX hR
  obtain ⟨b1, b2⟩ := Float64.sub_zero_key hY hR
  obtain ⟨r1, r2⟩ := Float64.add_zero_key hX hR
  obtain ⟨t1, t2⟩ := Float64.add_zero_key hY hR
  obtain ⟨ml1, ml2⟩ := Float64.Min_key (x := Float64.MaxFloat64) rfl l1
  obtain ⟨mb1, mb2⟩ := Float64.Min_key (x := Float64.MaxFloat64) rfl b1
  obtain ⟨mr1, mr2⟩ := Float64.Max_key (x := Float64.negMaxFloat64) rfl r1
  obtain ⟨mt1, mt2⟩ := Float64.Max_key (x := Float64.negMaxFloat64) rfl t1
  rw [key_MaxFloat64] at ml2 mb2
  rw [key_negMaxFloat64] at mr2 mt2
  refine ⟨(Float64.eq_iff ml1 xn).mpr (by omega), (Float64.eq_iff mb1 yn).mpr (by omega),
    (Float64.eq_iff mr1 xn).mpr (by omega), (Float64.eq_iff mt1 yn).mpr (by omega),
    Float64.sub_eq_zero_of_key_eq mr1 ml1 (by omega) (by omega) (by omega),
    Float64.sub_eq_zero_of_key_eq mt1 mb1 (by omega) (by omega) (by omega)⟩

/-- C5 at the circle centred at `(10, 0)` with radius `+0`. -/
theorem boundingBox_radius_zero_witness :
    (pointCircle.Radius.eq Float64.zero = true ∧ pointCircle.X.isFinite = true ∧
      pointCircle.Y.isFinite = true) ∧
    (CalculateBoundingBox [pointCircle]).LeftBottom.X.eq pointCircle.X = true ∧
    (CalculateBoundingBox [pointCircle]).LeftBottom.Y.eq pointCircle.Y = true ∧
    (CalculateBoundingBox [pointCircle]).RightTop.X.eq pointCircle.X = true ∧
    (CalculateBoundingBox [pointCircle]).RightTop.Y.eq pointCircle.Y = true ∧
    (Float64.sub (CalculateBoundingBox [pointCircle]).RightTop.X
      (CalculateBoundingBox [pointCircle]).LeftBottom.X).eq Float64.zero = true ∧
    (Float64.sub (CalculateBoundingBox [pointCircle]).RightTop.Y
      (CalculateBoundingBox [pointCircle]).LeftBottom.Y).eq Float64.zero = true :=
  ⟨⟨by decide!, by decide!, by decide!⟩,
    boundingBox_radius_zero pointCircle (by decide!) (by decide!) (by decide!)⟩

/-- C10: for every list of circles (empty or not) with finite fields in which
every circle has `Radius >= 0`, the computed rectangle is well-formed:
`LeftBottom.X <= RightTop.X` and `LeftBottom.Y <= RightTop.Y`. -/
theorem boundingBox_wellFormed (cs : List Circle)
    (hfin : ∀ c ∈ cs, c.isFinite = true)
    (hR : ∀ c ∈ cs, Float64.zero.le c.Radius = true) :
    (CalculateBoundingBox cs).LeftBottom.X.le (CalculateBoundingBox cs).RightTop.X = true ∧
    (CalculateBoundingBox cs).LeftBottom.Y.le (CalculateBoundingBox cs).RightTop.Y = true :=
  wellFormed_of_extentsNotNaN cs hR (fun c hc => extentsNotNaN_of_isFinite (hfin c hc))

/-- C10 at the two circles `(0,0) r=1` and `(10,0) r=1`. -/
theorem boundingBox_wellFormed_witness :
    ((∀ c ∈ [circleA, circleB], c.isFinite = true) ∧
      ∀ c ∈ [circleA, circleB], Float64.zero.le c.Radius = true) ∧
    (CalculateBoundingBox [circleA, circleB]).LeftBottom.X.le
      (CalculateBoundingBox [circleA, circleB]).RightTop.X = true ∧
    (CalculateBoundingBox [circleA, circleB]).LeftBottom.Y.le
      (CalculateBoundingBox [circleA, circleB]).RightTop.Y = true :=
  ⟨⟨by decide!, by decide!⟩,
    boundingBox_wellFormed [circleA, circleB] (by decide!) (by decide!)⟩

/-! ## The loops that append -/

theorem foldl_append_singleton {α β : Type} (f : α → β) (xs : List α) :
    ∀ acc : List β, xs.foldl (fun r x => r ++ [f x]) acc = acc ++ xs.map f := by
  induction xs with
  | nil => intro acc; simp
  | cons x xs ih => intro acc; simp [ih]

theorem copyParams_eq (results : List Rectangle) : copyParams results = results := by
  unfold copyParams
  rw [foldl_append_singleton (fun r => r) results []]
  simp

theorem boundingBoxes_eq_map (tasks : List (List Circle)) :
    boundingBoxes tasks = tasks.map CalculateBoundingBox := by
  unfold boundingBoxes
  rw [foldl_append_singleton CalculateBoundingBox tasks []]
  simp

/-! ## Events of the two calls -/

theorem GetTasks_events (net : Net) : (GetTasks net).2 = [.post getTasksRequest] := by
  unfold GetTasks
  rcases net.post getTasksRequest with e | (e | r) <;> rfl

theorem printChecks_no_call (rs : List Rectangle) (items : List JSONValue) :
    ∀ i, Event.callCheckResults rs ∉ printChecks i items := by
  induction items with
  | nil => intro i; simp [printChecks]
  | cons v vs ih =>
    intro i
    cases v <;> simp [printChecks, ih]

theorem interpretCheck_no_call (rs : List Rectangle) (apiResp : APIResponse) :
    Event.callCheckResults rs ∉ (interpretCheck apiResp).2 := by
  unfold interpretCheck
  rcases apiResp with ⟨res, _ | e⟩
  · cases res <;> simp [printChecks_no_call]
  · simp

theorem CheckResults_calls (net : Net) (results rs : List Rectangle) :
    Event.callCheckResults rs ∈ (CheckResults net results).2 ↔ rs = results := by
  unfold CheckResults
  dsimp only
  split
  · simp
  · split <;> simp [interpretCheck_no_call]

theorem printChecks_no_post (req : APIRequest) (items : List JSONValue) :
    ∀ i, Event.post req ∉ printChecks i items := by
  induction items with
  | nil => intro i; simp [printChecks]
  | cons v vs ih =>
    intro i
    cases v <;> simp [printChecks, ih]

theorem interpretCheck_no_post (req : APIRequest) (apiResp : APIResponse) :
    Event.post req ∉ (interpretCheck apiResp).2 := by
  unfold interpretCheck
  rcases apiResp with ⟨res, _ | e⟩
  · cases res <;> simp [printChecks_no_post]
  · simp

/-- Whatever `CheckResults` sends is the request with method "CheckResults"
whose params are its argument. -/
theorem CheckResults_posts (net : Net) (results : List Rectangle) (req : APIRequest) :
    Event.post req ∈ (CheckResults net results).2 →
      req = ⟨apiKey, "CheckResults", .rectangles results⟩ := by
  unfold CheckResults
  dsimp only
  simp only [checkResultsRequest, copyParams_eq]
  split
  · simp
  · split <;> simp [interpretCheck_no_post]

theorem unsupportedValue_of_isFinite {x : Float64} (h : x.isFinite = true) :
    unsupportedValue x = none := by
  rcases x with ⟨_ | n | ⟨n, m⟩, hv⟩ <;> simp [Float64.isFinite] at h
  rfl

/-- `json.Marshal` accepts rectangles whose coordinates are all finite. -/
theorem marshalRectangles_ok (rs : List Rectangle) (h : ∀ r ∈ rs, r.isFinite = true) :
    marshalRectangles rs = .ok () := by
  induction rs with
  | nil => rfl
  | cons r rest ih =>
    have hr := h r (List.mem_cons_self r rest)
    simp only [Rectangle.isFinite, Bool.and_eq_true] at hr
    obtain ⟨⟨⟨h1, h2⟩, h3⟩, h4⟩ := hr
    simp only [marshalRectangles, unsupportedValue_of_isFinite h1,
      unsupportedValue_of_isFinite h2, unsupportedValue_of_isFinite h3,
      unsupportedValue_of_isFinite h4, Option.orElse]
    exact ih (fun r' hr' => h r' (List.mem_cons_of_mem r hr'))

/-- With finite rectangles `CheckResults` does send that request. -/
theorem CheckResults_posts_of_finite (net : Net) (results : List Rectangle)
    (h : ∀ r ∈ results, r.isFinite = true) :
    Event.post ⟨apiKey, "CheckResults", .rectangles results⟩ ∈ (CheckResults net results).2 := by
  have hm := marshalRectangles_ok results h
  unfold CheckResults
  dsimp only
  simp only [checkResultsRequest, copyParams_eq, hm]
  split <;> simp

/-- The run after `GetTasks` returned `tasks`: the `GetTasks` request, what
`CheckResults` does with the bounding boxes, and the error line if it failed. -/
theorem main_of_tasks (net : Net) (tasks : List (List Circle))
    (hget : (GetTasks net).1 = .ok tasks) :
    main net = [.post getTasksRequest] ++ (CheckResults net (boundingBoxes tasks)).2 ++
      (match (CheckResults net (boundingBoxes tasks)).1 with
        | .error err => [.print ("Error checking results: " ++ err ++ "\n")]
        | .ok () => []) := by
  have hev := GetTasks_events net
  unfold main
  rcases hG : GetTasks net with ⟨r, ev⟩
  rw [hG] at hget hev
  simp only at hget hev
  subst hget hev
  simp only
  rcases hC : CheckResults net (boundingBoxes tasks) with ⟨r2, ev2⟩
  rcases r2 with err | u
  · simp
  · simp

theorem printChecks_bools (bs : List Bool) : ∀ k : Nat,
    (printChecks k (bs.map JSONValue.bool)).length = bs.length ∧
    ∀ (i : Nat) (h : i < bs.length) (h' : i < (printChecks k (bs.map JSONValue.bool)).length),
      (printChecks k (bs.map JSONValue.bool))[i] =
        Event.print ("Test " ++ toString (k + i + 1) ++ " passed: " ++ toString bs[i] ++ "\n") := by
  induction bs with
  | nil => intro k; exact ⟨rfl, fun i h => absurd h (Nat.not_lt_zero i)⟩
  | cons b bs ih =>
    intro k
    obtain ⟨ih1, ih2⟩ := ih (k + 1)
    refine ⟨by simp [printChecks, ih1], ?_⟩
    intro i h h'
    cases i with
    | zero => simp [printChecks]
    | succ j =>
      simp only [List.map_cons, printChecks, List.getElem_cons_succ]
      have hj : j < bs.length := by simpa using h
      rw [ih2 j hj]
      have : k + 1 + j + 1 = k + (j + 1) + 1 := by omega
      rw [this]

/-! ## The claims about `GetTasks`, `CheckResults` and `main` -/

/-- C6: for every decoded response without error object whose result is not an
array, the interpretation step of `GetTasks` returns the error
"invalid response format" (and no tasks) and that of `CheckResults` returns the
error "invalid response format for results check" and prints nothing; both are
total functions, so neither can panic. -/
theorem interpret_result_not_array (net : Net) (apiResp : APIResponse)
    (hErr : apiResp.Error = none) (hRes : ∀ items, apiResp.Result ≠ .array items) :
    interpretTasks net apiResp = .error "invalid response format" ∧
    interpretCheck apiResp = (.error "invalid response format for results check", []) := by
  rcases apiResp with ⟨res, err⟩
  simp only at hErr hRes
  subst hErr
  cases res with
  | array items => exact absurd rfl (hRes items)
  | _ => exact ⟨rfl, rfl⟩

/-- C6 at the response whose result is `null`. -/
theorem interpret_result_not_array_witness :
    (nullResponse.Error = none ∧ ∀ items, nullResponse.Result ≠ .array items) ∧
    interpretTasks twoTaskNet nullResponse = .error "invalid response format" ∧
    interpretCheck nullResponse = (.error "invalid response format for results check", []) :=
  ⟨⟨rfl, fun _ h => JSONValue.noConfusion h⟩,
    interpret_result_not_array twoTaskNet nullResponse rfl (fun _ h => JSONValue.noConfusion h)⟩

/-- C7: when the response to `GetTasks` carries an error object with message
`m`, whatever its result field holds, `GetTasks` returns the error
"API error: m" (which contains `m`) and no tasks, and the whole run is the
`GetTasks` request followed by the one line "Error getting tasks: API error: m":
`CheckResults` is never called and nothing else is sent. -/
theorem getTasks_api_error (net : Net) (apiResp : APIResponse) (e : APIError)
    (hpost : net.post getTasksRequest = .ok (.ok apiResp)) (hErr : apiResp.Error = some e) :
    (GetTasks net).1 = .error ("API error: " ++ e.Message) ∧
    (∃ before after : String, "API error: " ++ e.Message = before ++ e.Message ++ after) ∧
    main net =
      [.post getTasksRequest,
       .print ("Error getting tasks: " ++ ("API error: " ++ e.Message) ++ "\n")] ∧
    (∀ rs, Event.callCheckResults rs ∉ main net) ∧
    (∀ req, Event.post req ∈ main net → req = getTasksRequest) := by
  have hget : GetTasks net = (.error ("API error: " ++ e.Message), [.post getTasksRequest]) := by
    unfold GetTasks
    rw [hpost]
    simp only [interpretTasks, hErr]
  have hmain : main net =
      [.post getTasksRequest,
       .print ("Error getting tasks: " ++ ("API error: " ++ e.Message) ++ "\n")] := by
    unfold main
    rw [hget]
    rfl
  refine ⟨by rw [hget], ⟨"API error: ", "", by simp⟩, hmain, ?_, ?_⟩
  · intro rs
    rw [hmain]
    simp
  · intro req
    rw [hmain]
    simp

/-- C7 at a network that answers with the error object `(7, "bad key")` next
to a result array. -/
theorem getTasks_api_error_witness :
    (errorNet.post getTasksRequest = .ok (.ok errorResponse) ∧
      errorResponse.Error = some ⟨7, "bad key"⟩) ∧
    (GetTasks errorNet).1 = .error ("API error: " ++ (⟨7, "bad key"⟩ : APIError).Message) ∧
    (∃ before after : String,
      "API error: " ++ (⟨7, "bad key"⟩ : APIError).Message =
        before ++ (⟨7, "bad key"⟩ : APIError).Message ++ after) ∧
    main errorNet =
      [.post getTasksRequest,
       .print ("Error getting tasks: " ++
         ("API error: " ++ (⟨7, "bad key"⟩ : APIError).Message) ++ "\n")] ∧
    (∀ rs, Event.callCheckResults rs ∉ main errorNet) ∧
    (∀ req, Event.post req ∈ main errorNet → req = getTasksRequest) :=
  ⟨⟨rfl, rfl⟩, getTasks_api_error errorNet errorResponse ⟨7, "bad key"⟩ rfl rfl⟩

/-- C8: for every task list `tasks` that `GetTasks` returns, `main` calls
`CheckResults` exactly once, with a list `rs` that has the length of `tasks`
and whose `i`-th element is `CalculateBoundingBox (tasks[i])` for every index
`i` (so an empty task contributes the zero rectangle); the only request the run
sends besides the `GetTasks` one is the "CheckResults" request whose params are
`rs`, and that request is sent whenever the rectangles are finite (so that
`json.Marshal` accepts them). -/
theorem main_one_box_per_task (net : Net) (tasks : List (List Circle))
    (hget : (GetTasks net).1 = .ok tasks) :
    ∃ rs : List Rectangle,
      Event.callCheckResults rs ∈ main net ∧
      (∀ rs', Event.callCheckResults rs' ∈ main net → rs' = rs) ∧
      (∀ req, Event.post req ∈ main net →
        req = getTasksRequest ∨ req = ⟨apiKey, "CheckResults", .rectangles rs⟩) ∧
      ((∀ r ∈ rs, r.isFinite = true) →
        Event.post ⟨apiKey, "CheckResults", .rectangles rs⟩ ∈ main net) ∧
      rs.length = tasks.length ∧
      ∀ (i : Nat) (h : i < tasks.length) (h' : i < rs.length),
        rs[i] = CalculateBoundingBox tasks[i] := by
  have hmain := main_of_tasks net tasks hget
  have hcall : ∀ rs', Event.callCheckResults rs' ∈ main net ↔ rs' = boundingBoxes tasks := by
    intro rs'
    have hc := CheckResults_calls net (boundingBoxes tasks) rs'
    rw [hmain]
    rcases (CheckResults net (boundingBoxes tasks)).1 with err | u
    · simpa using hc
    · simpa using hc
  refine ⟨boundingBoxes tasks, (hcall _).mpr rfl, fun rs' h => (hcall rs').mp h, ?_, ?_, ?_, ?_⟩
  · intro req hreq
    rw [hmain] at hreq
    have hp := CheckResults_posts net (boundingBoxes tasks) req
    have htail : ∀ r : Except String Unit, Event.post req ∉
        (match r with
          | .error err => [Event.print ("Error checking results: " ++ err ++ "\n")]
          | .ok () => []) := by
      intro r
      rcases r with err | u <;> simp
    simp only [List.mem_append, List.mem_singleton, Event.post.injEq] at hreq
    rcases hreq with (h1 | h2) | h3
    · exact Or.inl h1
    · exact Or.inr (hp h2)
    · exact absurd h3 (htail _)
  · intro hfin
    rw [hmain]
    have hp := CheckResults_posts_of_finite net (boundingBoxes tasks) hfin
    simp only [List.mem_append]
    exact Or.inl (Or.inr hp)
  · simp [boundingBoxes_eq_map]
  · intro i h h'
    simp [boundingBoxes_eq_map]

/-- C8 at a network whose `GetTasks` result holds two tasks, the second empty:
the request sent carries `(-5,-5)-(5,5)` and the zero rectangle. -/
theorem main_one_box_per_task_witness :
    (GetTasks twoTaskNet).1 = .ok [[circle5], []] ∧
    (∃ rs : List Rectangle,
      Event.callCheckResults rs ∈ main twoTaskNet ∧
      (∀ rs', Event.callCheckResults rs' ∈ main twoTaskNet → rs' = rs) ∧
      (∀ req, Event.post req ∈ main twoTaskNet →
        req = getTasksRequest ∨ req = ⟨apiKey, "CheckResults", .rectangles rs⟩) ∧
      ((∀ r ∈ rs, r.isFinite = true) →
        Event.post ⟨apiKey, "CheckResults", .rectangles rs⟩ ∈ main twoTaskNet) ∧
      rs.length = [[circle5], ([] : List Circle)].length ∧
      ∀ (i : Nat) (h : i < [[circle5], ([] : List Circle)].length) (h' : i < rs.length),
        rs[i] = CalculateBoundingBox [[circle5], ([] : List Circle)][i]) ∧
    Event.post ⟨apiKey, "CheckResults",
        .rectangles [Rectangle.ofInts (-5) (-5) 5 5, Rectangle.zeroValue]⟩ ∈
      main twoTaskNet :=
  ⟨rfl, main_one_box_per_task twoTaskNet [[circle5], []] rfl, by decide!⟩

/-- C9: when the response to `CheckResults` has no error object and its result
is an array of booleans `[b1, ..., bn]`, the interpretation step returns no
error and prints exactly `n` lines, the `i`-th (from 1) being
"Test i passed: bi", in array order; and the call of `CheckResults` that
received this response returns no error and prints exactly these lines after
sending its request. -/
theorem checkResults_prints_bools (apiResp : APIResponse) (bs : List Bool)
    (hErr : apiResp.Error = none) (hRes : apiResp.Result = .array (bs.map JSONValue.bool)) :
    (interpretCheck apiResp).1 = .ok () ∧
    (interpretCheck apiResp).2.length = bs.length ∧
    (∀ (i : Nat) (h : i < bs.length) (h' : i < (interpretCheck apiResp).2.length),
      (interpretCheck apiResp).2[i] =
        Event.print ("Test " ++ toString (i + 1) ++ " passed: " ++ toString bs[i] ++ "\n")) ∧
    (∀ (net : Net) (results : List Rectangle),
      marshalRectangles (copyParams results) = .ok () →
      net.post (checkResultsRequest results) = .ok (.ok apiResp) →
      CheckResults net results =
        (.ok (), [.callCheckResults results, .post (checkResultsRequest results)] ++
          (interpretCheck apiResp).2)) := by
  have hint : interpretCheck apiResp = (.ok (), printChecks 0 (bs.map JSONValue.bool)) := by
    unfold interpretCheck
    rw [hErr, hRes]
  obtain ⟨p1, p2⟩ := printChecks_bools bs 0
  refine ⟨by rw [hint], by rw [hint]; exact p1, ?_, ?_⟩
  · intro i h h'
    have h'' : i < (printChecks 0 (bs.map JSONValue.bool)).length := by rw [p1]; exact h
    have := p2 i h h''
    simp only [Nat.zero_add] at this
    simp only [hint]
    exact this
  · intro net results hm hp
    unfold CheckResults
    simp only [hm, hp, hint]

/-- C9 at the response whose result is `[true, false]`: the two lines are
"Test 1 passed: true" and "Test 2 passed: false". -/
theorem checkResults_prints_bools_witness :
    (boolsResponse.Error = none ∧
      boolsResponse.Result = .array ([true, false].map JSONValue.bool)) ∧
    ((interpretCheck boolsResponse).1 = .ok () ∧
      (interpretCheck boolsResponse).2.length = [true, false].length ∧
      (∀ (i : Nat) (_h : i < [true, false].length)
          (h' : i < (interpretCheck boolsResponse).2.length),
        (interpretCheck boolsResponse).2[i] =
          Event.print
            ("Test " ++ toString (i + 1) ++ " passed: " ++ toString [true, false][i] ++ "\n")) ∧
      (∀ (net : Net) (results : List Rectangle),
        marshalRectangles (copyParams results) = .ok () →
        net.post (checkResultsRequest results) = .ok (.ok boolsResponse) →
        CheckResults net results =
          (.ok (), [.callCheckResults results, .post (checkResultsRequest results)] ++
            (interpretCheck boolsResponse).2))) ∧
    (interpretCheck boolsResponse).2 =
      [.print "Test 1 passed: true\n", .print "Test 2 passed: false\n"] :=
  ⟨⟨rfl, rfl⟩, checkResults_prints_bools boolsResponse [true, false] rfl rfl, by decide⟩

end Elecard
